import Mathlib

/-!
Verification development for the WhatsApp calendar-assistant repository.

The Python sources embedded here are:
* `src/services/intent_detector.py` — keyword-based intent classification;
* `src/services/slots_extractor.py` — declared slot extractor (body is an
  empty stub, so its behaviour is modelled from the spec where needed);
* `src/API/whatsApp.py` — slot merging (`aplicar_extraccion_de_slots`),
  event resolution (`resolver_evento_id`) and the webhook turn handler
  (`receive`).

Python dictionaries are modelled as association lists of string keys and
JSON-like values, machine behaviour (truthiness, `dict.get`, in-place
assignment) is translated operation by operation, and the webhook handler
becomes a pure step function over an explicit conversation-state record.
-/

namespace App

/-- A disambiguation candidate as built by `resolver_evento_id`:
the tuple `(titulo, event_id, inicio_str, fin_str)`. -/
structure Opcion where
  titulo : String
  eventId : String
  inicio : String
  fin : String
deriving DecidableEq, Repr

/-- JSON-like values stored in `slots_json`.  `vopts` is the list of
candidate tuples that `resolver_evento_id` produces (a Python list of
4-tuples). -/
inductive Val where
  | vnull : Val
  | vstr : String → Val
  | vlist : List Val → Val
  | vdict : List (String × Val) → Val
  | vopts : List Opcion → Val

/-- The `v is None` test of the merge loop. -/
def Val.isNull : Val → Bool
  | .vnull => true
  | _ => false

/-- A Python `dict` with string keys, as an association list (first
occurrence of a key is authoritative; Python dicts never hold duplicate
keys). -/
abbrev Dict := List (String × Val)

/-- Python `d.get(k)` / `k in d`: first binding of `k`, if any. -/
def dget (d : Dict) (k : String) : Option Val :=
  match d with
  | [] => none
  | (k', v) :: rest => if k' = k then some v else dget rest k

/-- Python `d[k] = v`: replace the (first) binding of `k` in place, or append a
new binding at the end, exactly like assignment into a Python dict. -/
def dset (d : Dict) (k : String) (v : Val) : Dict :=
  match d with
  | [] => [(k, v)]
  | (k', w) :: rest => if k' = k then (k, v) :: rest else (k', w) :: dset rest k v

/-- Python `d.pop(k, None)`: remove the binding of `k`. -/
def derase (d : Dict) (k : String) : Dict :=
  d.filter (fun kv => kv.1 ≠ k)

/-- The keys of a dict. -/
def dkeys (d : Dict) : List String := d.map (·.1)

/-- Membership in the tuple `(None, "", [], {})` used by the merge in
`aplicar_extraccion_de_slots` (an empty candidate list is a Python `[]`
as well). -/
def esVacio : Val → Bool
  | .vnull => true
  | .vstr s => s = ""
  | .vlist l => l.isEmpty
  | .vdict d => d.isEmpty
  | .vopts o => o.isEmpty

/-- Python truthiness of a slot value. -/
def truthy (v : Val) : Bool := !(esVacio v)

/-- Truthiness of `d.get(k)` (a missing key reads as `None`, hence falsy). -/
def truthyAt (d : Dict) (k : String) : Bool :=
  match dget d k with
  | some v => truthy v
  | none => false

/-- One iteration of the merge loop of `aplicar_extraccion_de_slots`
(whatsApp.py lines 121-125): skip `None` proposals, otherwise fill the
slot only when it is missing or holds an empty value. -/
def mergeStep (acc : Dict) (kv : String × Val) : Dict :=
  if kv.2.isNull then acc
  else
    match dget acc kv.1 with
    | none => dset acc kv.1 kv.2
    | some w => if esVacio w then dset acc kv.1 kv.2 else acc

/-- The fill-missing-only merge of proposed slots into the current slots
(whatsApp.py lines 120-125). -/
def mergeSlots (cur prop : Dict) : Dict := prop.foldl mergeStep cur

/-- One iteration of the `cambios` merge loop (whatsApp.py lines 134-136):
same fill-missing-only rule, but `None` values are not skipped. -/
def camStep (base : Dict) (kv : String × Val) : Dict :=
  match dget base kv.1 with
  | none => dset base kv.1 kv.2
  | some w => if esVacio w then dset base kv.1 kv.2 else base

/-- Merge newly detected `cambios` into the stored `cambios` dict
(whatsApp.py lines 134-136). -/
def mergeCambiosDict (base cam : Dict) : Dict := cam.foldl camStep base

/-- The `cambios` integration step of `aplicar_extraccion_de_slots`
(whatsApp.py lines 128-136): only under intent `"actualizar"` and only
when the extractor returned a non-empty `cambios` dict; a non-dict stored
value is replaced wholesale, a dict is merged key by key. -/
def aplicarCambios (intent : String) (acc : Dict) (cam : Option Dict) : Dict :=
  if intent = "actualizar" then
    match cam with
    | some c =>
      if c.isEmpty then acc
      else
        match dget acc "cambios" with
        | some (.vdict base) => dset acc "cambios" (.vdict (mergeCambiosDict base c))
        | some _ => dset acc "cambios" (.vdict c)
        | none => dset acc "cambios" (.vdict c)
    | none => acc
  else acc

/-- The whole merge portion of `aplicar_extraccion_de_slots`
(whatsApp.py lines 117-136): copy the stored slots, fill missing slots
from the proposal, then integrate `cambios`. -/
def mergePropuesta (intent : String) (cur prop : Dict) (cam : Option Dict) : Dict :=
  aplicarCambios intent (mergeSlots cur prop) cam

/-- A proposal entry no longer changes the accumulated slots: it is `None`,
or its key already holds a value that is non-empty or equal to the
proposed one. -/
def mergeDone (acc : Dict) (kv : String × Val) : Prop :=
  kv.2.isNull = true ∨ ∃ w, dget acc kv.1 = some w ∧ (esVacio w = false ∨ w = kv.2)

/-! ### Same development for the `cambios` merge (which keeps `None`s) -/

/-- A `cambios` entry no longer changes the stored `cambios` dict. -/
def camDone (base : Dict) (kv : String × Val) : Prop :=
  ∃ w, dget base kv.1 = some w ∧ (esVacio w = false ∨ w = kv.2)

/-! ### Intent detector (src/services/intent_detector.py) -/

/-- The accent stripping of `_strip_accents` (NFD normalisation followed
by dropping combining marks), written out for the precomposed accented
characters of the Spanish repertoire the keyword lists operate on; other
characters are returned unchanged. -/
def stripAccentChar (c : Char) : Char :=
  if c = 'á' then 'a' else if c = 'é' then 'e' else if c = 'í' then 'i'
  else if c = 'ó' then 'o' else if c = 'ú' then 'u' else if c = 'ü' then 'u'
  else if c = 'ñ' then 'n'
  else if c = 'Á' then 'A' else if c = 'É' then 'E' else if c = 'Í' then 'I'
  else if c = 'Ó' then 'O' else if c = 'Ú' then 'U' else if c = 'Ü' then 'U'
  else if c = 'Ñ' then 'N'
  else c

/-- Python `str.lower`, written out for ASCII letters and the precomposed
accented Spanish capitals. -/
def pyLowerChar (c : Char) : Char :=
  if 65 ≤ c.toNat ∧ c.toNat ≤ 90 then Char.ofNat (c.toNat + 32)
  else if c = 'Á' then 'á' else if c = 'É' then 'é' else if c = 'Í' then 'í'
  else if c = 'Ó' then 'ó' else if c = 'Ú' then 'ú' else if c = 'Ü' then 'ü'
  else if c = 'Ñ' then 'ñ'
  else c

/-- Python `str.strip`: drop whitespace from both ends. -/
def trimChars (cs : List Char) : List Char :=
  ((cs.dropWhile Char.isWhitespace).reverse.dropWhile Char.isWhitespace).reverse

/-- The `_normalize` of intent_detector.py: strip accents, lower-case, strip. -/
def normalizar (msg : String) : List Char :=
  trimChars ((msg.data.map stripAccentChar).map pyLowerChar)

/-- The regular-expression fragment the keyword lists use: literals,
concatenation, alternation, an optional group, and `\s+`.  Each keyword
pattern of the source is of the shape `\b body \b`; the word-boundary
anchors are handled by `searchB` below. -/
inductive Pat where
  | lit : List Char → Pat
  | seq : Pat → Pat → Pat
  | alt : Pat → Pat → Pat
  | opt : Pat → Pat
  | ws : Pat

/-- Remainders after consuming one or more whitespace characters
(the `\s+` of the patterns). -/
def wsRem : List Char → List (List Char)
  | [] => []
  | c :: rest => if c.isWhitespace then rest :: wsRem rest else []

/-- All remainders of `cs` left over by some match of `p` at the front of
`cs` (the backtracking regex engine, as a set of outcomes). -/
def Pat.run : Pat → List Char → List (List Char)
  | .lit s, cs => if s.isPrefixOf cs then [cs.drop s.length] else []
  | .seq p q, cs => (p.run cs).flatMap q.run
  | .alt p q, cs => p.run cs ++ q.run cs
  | .opt p, cs => cs :: p.run cs
  | .ws, cs => wsRem cs

/-- The `\w` class over the normalised (ASCII) text. -/
def wordChar (c : Char) : Bool := c.isAlpha || c.isDigit || c = '_'

/-- Does some remainder start at a word boundary (end of input or a
non-word character)?  This is the trailing `\b` of every keyword. -/
def boundaryOk (rs : List (List Char)) : Bool :=
  rs.any (fun r =>
    match r with
    | [] => true
    | c :: _ => !wordChar c)

/-- Worker for `searchB`: try to match at the current position (whose
preceding character, if any, is `prev`), else advance one character. -/
def searchBAux (p : Pat) : Option Char → List Char → Bool
  | prev, [] =>
    (match prev with
     | none => true
     | some c => !wordChar c) && boundaryOk (p.run [])
  | prev, c :: rest =>
    ((match prev with
      | none => true
      | some c' => !wordChar c') && boundaryOk (p.run (c :: rest)))
    || searchBAux p (some c) rest

/-- Python `re.search` of `\b p \b` over `cs`. -/
def searchB (p : Pat) (cs : List Char) : Bool := searchBAux p none cs

/-- A literal keyword. -/
def pstr (s : String) : Pat := .lit s.data

/-- The `CREATE_KEYWORDS` list. -/
def CREATE_KEYWORDS : List Pat :=
  [ pstr "crear",
    pstr "agendar",
    pstr "programar",
    .seq (pstr "crea") (.opt (pstr "r")),
    .seq (pstr "agenda") (.opt (.alt (pstr "r") (pstr "me"))),
    .seq (pstr "pon")
      (.seq (.alt (pstr "e") (pstr "er"))
        (.seq .ws
          (.seq (.opt (.seq (pstr "en") .ws))
            (.seq (.opt (.seq (pstr "el") .ws))
              (.alt (pstr "calendario") (pstr "agenda")))))) ]

/-- The `CANCEL_KEYWORDS` list. -/
def CANCEL_KEYWORDS : List Pat :=
  [ .seq (pstr "cancel")
      (.opt (.alt (pstr "ar")
        (.alt (pstr "a")
          (.seq (pstr "a") (.seq (.opt (pstr "r")) (pstr "lo")))))),
    pstr "eliminar",
    pstr "borrar",
    .seq (pstr "anula") (.opt (pstr "r")),
    .seq (pstr "dar") (.seq .ws (.seq (pstr "de") (.seq .ws (pstr "baja")))) ]

/-- The `UPDATE_KEYWORDS` list. -/
def UPDATE_KEYWORDS : List Pat :=
  [ pstr "mover",
    pstr "posponer",
    pstr "cambiar",
    pstr "reprogramar",
    pstr "modificar",
    pstr "pasar" ]

/-- The `CHECK_AVAILABILITY_KEYWORDS` list. -/
def CHECK_AVAILABILITY_KEYWORDS : List Pat :=
  [ .seq (pstr "estoy") (.seq .ws (pstr "libre")),
    .seq (pstr "ten")
      (.seq (.alt (pstr "go") (pstr "es"))
        (.seq .ws (.alt (pstr "libre") (pstr "ocupado")))),
    pstr "disponibilidad",
    .seq (pstr "est")
      (.seq (.alt (pstr "as") (pstr "oy")) (.seq .ws (pstr "libre"))),
    .seq (pstr "hay") (.seq .ws (pstr "hueco")),
    .seq (pstr "puedo") (.seq .ws (pstr "el")),
    .seq (pstr "me") (.seq .ws (.seq (pstr "queda") (.seq .ws (pstr "bien")))) ]

/-- Does any pattern of the rule set match somewhere in `t`? -/
def matchesAny (pats : List Pat) (t : List Char) : Bool :=
  pats.any (fun p => searchB p t)

/-- The classifier `detect_intent` of intent_detector.py: normalise, then try the four
rule sets in their fixed order, first match wins. -/
def detect_intent (text : String) : Option String :=
  let t := normalizar text
  if matchesAny CREATE_KEYWORDS t then some "CREATE_EVENT"
  else if matchesAny CANCEL_KEYWORDS t then some "CANCEL_EVENT"
  else if matchesAny UPDATE_KEYWORDS t then some "UPDATE_EVENT"
  else if matchesAny CHECK_AVAILABILITY_KEYWORDS t then some "CHECK_AVAILABILITY"
  else none

/-! ### Event resolver (src/API/whatsApp.py, `resolver_evento_id`) -/

/-- Numeric value of a non-empty all-digit character list. -/
def digitsVal (cs : List Char) : Option Nat :=
  if cs.all Char.isDigit ∧ cs ≠ [] then
    some (cs.foldl (fun acc c => acc * 10 + (c.toNat - 48)) 0)
  else none

/-- Gregorian leap year, as `datetime.date` validates it. -/
def esBisiesto (y : Nat) : Bool := y % 4 = 0 && (y % 100 ≠ 0 || y % 400 = 0)

/-- Days in a month, as `datetime.date` validates it. -/
def diasDelMes (y m : Nat) : Nat :=
  if m = 2 then (if esBisiesto y then 29 else 28)
  else if m = 4 ∨ m = 6 ∨ m = 9 ∨ m = 11 then 30
  else 31

/-- Python `date.fromisoformat` on its `YYYY-MM-DD` format: the calendar-valid
`(year, month, day)`, or `none` where Python raises `ValueError`. -/
def parseFechaChars : List Char → Option (Nat × Nat × Nat)
  | [a, b, c, d, s1, e, f, s2, g, h] =>
    if s1 = '-' ∧ s2 = '-' then
      match digitsVal [a, b, c, d], digitsVal [e, f], digitsVal [g, h] with
      | some y, some m, some dd =>
        if 1 ≤ y ∧ 1 ≤ m ∧ m ≤ 12 ∧ 1 ≤ dd ∧ dd ≤ diasDelMes y m then
          some (y, m, dd)
        else none
      | _, _, _ => none
    else none
  | _ => none

/-- Python `date.fromisoformat` on a string. -/
def parseFecha (s : String) : Option (Nat × Nat × Nat) :=
  parseFechaChars s.data

/-- A UTC offset suffix `±HH:MM`, in signed minutes; `some none` when the
string ends here (a naive datetime), `none` on garbage. -/
def parseOffset : List Char → Option (Option Int)
  | [] => some none
  | [sign, h1, h2, c, m1, m2] =>
    if (sign = '+' ∨ sign = '-') ∧ c = ':' then
      match digitsVal [h1, h2], digitsVal [m1, m2] with
      | some oh, some om =>
        if oh ≤ 23 ∧ om ≤ 59 then
          some (some (if sign = '-' then -((oh : Int) * 60 + om) else (oh : Int) * 60 + om))
        else none
      | _, _ => none
    else none
  | _ => none

/-- A fractional-second suffix `.f…` (1 to 6 digits); returns the rest. -/
def parseFrac : List Char → Option (List Char)
  | '.' :: rest =>
    let ds := rest.takeWhile Char.isDigit
    if 1 ≤ ds.length ∧ ds.length ≤ 6 then some (rest.drop ds.length) else none
  | _ => none

/-- What may follow `HH:MM` in `datetime.fromisoformat` input:
optional `:SS[.f…]`, then an optional UTC offset. -/
def parseTail : List Char → Option (Option Int)
  | ':' :: s1 :: s2 :: rest =>
    (match digitsVal [s1, s2] with
     | some ss =>
       if ss ≤ 59 then
         match rest with
         | '.' :: _ =>
           (match parseFrac rest with
            | some rest2 => parseOffset rest2
            | none => none)
         | _ => parseOffset rest
       else none
     | none => none)
  | rest => parseOffset rest

/-- Python `datetime.fromisoformat` followed by `astimezone` into the configured
`America/Argentina/Buenos_Aires` zone (UTC-3, no DST), reduced to the
minutes-of-day that `%H:%M` formatting displays.  Handled grammar:
`YYYY-MM-DD[<sep>HH:MM[:SS[.f…]][±HH:MM]]`; a naive datetime (no offset)
is taken to already denote local time (the zone the server runs in). -/
def parseDateTimeMin (s : String) : Option Nat :=
  let cs := s.data
  match parseFechaChars (cs.take 10) with
  | none => none
  | some _ =>
    match cs.drop 10 with
    | [] => some 0
    | _sep :: t =>
      match t with
      | h1 :: h2 :: c1 :: m1 :: m2 :: rest =>
        if c1 = ':' then
          match digitsVal [h1, h2], digitsVal [m1, m2] with
          | some hh, some mm =>
            if hh ≤ 23 ∧ mm ≤ 59 then
              match parseTail rest with
              | none => none
              | some none => some (hh * 60 + mm)
              | some (some off) =>
                some ((((hh * 60 + mm : Int) - off - 180) % 1440).toNat)
            else none
          | _, _ => none
        else none
      | _ => none

/-- The `"start"`/`"end"` object of a calendar event:
`{"dateTime": RFC3339}` or `{"date": "YYYY-MM-DD"}` (a missing side is the
`{}` that `ev.get("start", {})` supplies). -/
structure EvSide where
  dateTime : Option String
  date : Option String
deriving DecidableEq, Repr

/-- A calendar event as `resolver_evento_id` reads it; `fin` is the
event's `"end"` object. -/
structure Event where
  id : Option String
  summary : Option String
  status : Option String
  start : EvSide
  fin : EvSide
deriving DecidableEq, Repr

/-- The inner `parse_dt` of `resolver_evento_id`, reduced to the displayed local
minutes-of-day: a trailing `Z` is first rewritten to `+00:00`, a
`dateTime` value is parsed as an ISO datetime, a `date` value is the local
midnight of that day, and parse failures give `None`. -/
def parse_dt (side : EvSide) : Option Nat :=
  match side.dateTime with
  | some s =>
    parseDateTimeMin
      (if s.data.getLast? = some 'Z' then s.dropRight 1 ++ "+00:00" else s)
  | none =>
    match side.date with
    | some ds => if (parseFecha ds).isSome then some 0 else none
    | none => none

/-- Two-digit decimal rendering, as `%H` / `%M`. -/
def two (n : Nat) : String := (if n < 10 then "0" else "") ++ toString n

/-- The `%H:%M` rendering of a minutes-of-day value. -/
def fmtHM (m : Nat) : String := two (m / 60) ++ ":" ++ two (m % 60)

/-- Python `x or default` on an optional string. -/
def orTruthyStr (o : Option String) (dflt : String) : String :=
  match o with
  | some s => if s = "" then dflt else s
  | none => dflt

/-- Build the candidate tuple for one live event (whatsApp.py lines
286-301): title with fallback, id with empty fallback, and the display
strings — the all-day sentinel when the start object carries a `date`
key, otherwise `%H:%M` of the parsed instants with an em-dash fallback. -/
def formatoOpcion (ev : Event) : Opcion :=
  let titulo := orTruthyStr ev.summary "(sin título)"
  let evId := orTruthyStr ev.id ""
  let dtStart := parse_dt ev.start
  let dtEnd := parse_dt ev.fin
  if ev.start.date.isSome then
    ⟨titulo, evId, "todo el día", ""⟩
  else
    ⟨titulo, evId,
      (match dtStart with
       | some m => fmtHM m
       | none => "—"),
      (match dtEnd with
       | some m => fmtHM m
       | none => "—")⟩

/-- Lexicographic strict comparison on code-point lists, the order Python
uses to compare the start-time display strings. -/
def strLtB : List Nat → List Nat → Bool
  | [], [] => false
  | [], _ :: _ => true
  | _ :: _, [] => false
  | a :: as, b :: bs => a < b || (a = b && strLtB as bs)

/-- The sort key of `resolver_evento_id` (line 304-307):
`(0 if inicio_str == "todo el día" else 1, inicio_str)`, with the string
as its code-point list. -/
def claveOpcion (o : Opcion) : Nat × List Nat :=
  (if o.inicio = "todo el día" then 0 else 1, o.inicio.data.map Char.toNat)

/-- Non-strict comparison of two candidates by their sort keys. -/
def opcionLe (a b : Opcion) : Bool :=
  (claveOpcion a).1 < (claveOpcion b).1
  || ((claveOpcion a).1 = (claveOpcion b).1
       && !(strLtB (claveOpcion b).2 (claveOpcion a).2))

/-- Insert `x` into an already sorted list, before the first element it
compares `le` to — the stable placement a Python sort gives an element
that preceded its equals. -/
def insOrdenado (le : Opcion → Opcion → Bool) (x : Opcion) : List Opcion → List Opcion
  | [] => [x]
  | y :: ys => if le x y then x :: y :: ys else y :: insOrdenado le x ys

/-- Stable sort by `le` (insertion sort).  `list.sort(key=...)` in Python
is also stable, and a stable sort w.r.t. a total preorder is unique, so
this computes exactly the list `opciones.sort(key=sort_key)` leaves. -/
def ordenarEstable (le : Opcion → Opcion → Bool) : List Opcion → List Opcion
  | [] => []
  | x :: xs => insOrdenado le x (ordenarEstable le xs)

/-- The resolver `resolver_evento_id` (whatsApp.py lines 228-310).  The calendar
collaborator's reply for the day window is passed in as its item list;
the function filters cancelled events, returns the single live event's id
when it is unique, and otherwise the candidate tuples sorted stably by
the day-long-first/start-string key.  Notice there is no truncation of
the candidate list. -/
def resolver_evento_id (fecha_id : String) (items : List Event) :
    Option String × List Opcion :=
  match parseFecha fecha_id with
  | none => (none, [])
  | some _ =>
    let vivos := items.filter (fun ev => ev.status ≠ some "cancelled")
    match vivos with
    | [] => (none, [])
    | [e] => (e.id, [])
    | _ => (none, ordenarEstable opcionLe (vivos.map formatoOpcion))

/-! ### The dialogue turn (src/API/whatsApp.py, `receive`)

The webhook handler is embedded as a pure step function over the mutable
columns of `ConversationState`.  The transport, authorisation gate and
database session are upstream of the conversation logic and outside the
model; the three collaborators the turn consumes are abstracted by `Env`.
-/

/-- The per-identity conversation state: the four mutable columns of the
`ConversationState` row. -/
structure ConvState where
  intentActual : Option String
  slots : Dict
  pendingIntent : Option String
  pendingMessage : Option String

/-- The collaborators one turn consumes.

`extraer` stands for `extraer_slots` of src/services/slots_extractor.py,
whose body in the source is an empty stub (only a docstring), and is
therefore modelled from the spec: `extract(intent, text, currentSlots,
timezone) → (proposedSlots, selectionCriteria, changes)`, a pure
text-to-structure transform with no I/O and no event-id resolution.

`resolver` is the calendar-day lookup that `resolver_evento_id` performs
through the calendar client (the client object itself is a collaborator
the handler wires in; the call sites in the source leave a `None`
placeholder for it).

`resumen` is the display string of the execution collaborator:
`ejecutar_accion_calendar` is called by `receive` but defined nowhere in
the repository, so it is modelled from the spec as
`execute(intent, slots) → (result, humanSummary)`. -/
structure Env where
  extraer : Option String → String → Dict → Dict × Option String × Option Dict
  resolver : String → Option String × List Opcion
  resumen : String

/-- Modelled from the spec: the extractor proposes only slot fields
(§4.2: title, start, end/duration, range bounds), never the
orchestrator's internal bookkeeping keys `awaiting` and
`opciones_evento`, which only the selection dialogue of §4.4 writes. -/
def WFEnv (env : Env) : Prop :=
  ∀ i t s, "awaiting" ∉ dkeys (env.extraer i t s).1
    ∧ "opciones_evento" ∉ dkeys (env.extraer i t s).1

/-- Python truthiness of an optional string (`if state.pending_intent:`). -/
def strOptTruthy : Option String → Bool
  | some p => p ≠ ""
  | none => false

/-- Python truthiness of `d.get(k)` as an optional value. -/
def optValTruthy : Option Val → Bool
  | some v => truthy v
  | none => false

/-- The candidate tuples stored under `opciones_evento` (the only shape
the source ever writes there). -/
def optsDe : Option Val → List Opcion
  | some (.vopts os) => os
  | _ => []

/-- The test `state.slots_json.get("awaiting") == "event_selection"`. -/
def esperaSeleccion (d : Dict) : Bool :=
  match dget d "awaiting" with
  | some (.vstr a) => a = "event_selection"
  | _ => false

/-- Python `re.search(r"\d+", raw)` as the first maximal digit run, read as a
number. -/
def firstNumber : List Char → Option Nat
  | [] => none
  | c :: rest =>
    if c.isDigit then
      some (((c :: rest).takeWhile Char.isDigit).foldl
        (fun acc d => acc * 10 + (d.toNat - 48)) 0)
    else firstNumber rest

/-- Python `str.strip` on a string. -/
def pyStrip (s : String) : String := String.mk (trimChars s.data)

/-- The turn text of `aplicar_extraccion_de_slots` (line 104): the
pending message, when truthy, is prepended to the current message. -/
def textoTurno (msg : String) (pending : Option String) : String :=
  if strOptTruthy pending then
    pyStrip (pyStrip (match pending with
      | some p => p
      | none => "") ++ "\n" ++ pyStrip msg)
  else pyStrip msg

/-- The missing-field computation of `aplicar_extraccion_de_slots`
(lines 156-189).  `none` models the `AttributeError` Python raises when
`criterios_evento` holds a truthy non-dict (`crit.get` on it). -/
def calcFaltantes (intent : Option String) (d : Dict) : Option (List String) :=
  if intent = some "crear" then
    some ((if truthyAt d "inicio" then [] else ["inicio"])
      ++ (if truthyAt d "fin" || truthyAt d "duracion" then [] else ["fin/duracion"])
      ++ (if truthyAt d "titulo" then [] else ["titulo"]))
  else if intent = some "consultar_disponibilidad" then
    some ((if truthyAt d "desde" then [] else ["desde"])
      ++ (if truthyAt d "hasta" then [] else ["hasta"]))
  else if intent = some "actualizar" then
    some ((if truthyAt d "fecha_objetivo" then [] else ["fecha"])
      ++ (match dget d "cambios" with
          | some (.vdict c) => if c.isEmpty then ["cambios"] else []
          | some _ => ["cambios"]
          | none => ["cambios"]))
  else if intent = some "cancelar" then
    (match dget d "criterios_evento" with
     | some (.vdict c) => some (if truthyAt c "fecha" then [] else ["fecha"])
     | some v => if truthy v then none else some ["fecha"]
     | none => some ["fecha"])
  else some []

/-- The inline missing-field computation of the negative-confirmation
branch (lines 590-613) — unlike `calcFaltantes` it checks `event_id`
for update and cancel. -/
def faltantesNegativa (intent : Option String) (slots : Dict) : List String :=
  if intent = some "crear" then
    (if truthyAt slots "inicio" then [] else ["inicio"])
    ++ (if truthyAt slots "fin" || truthyAt slots "duracion" then [] else ["fin/duracion"])
    ++ (if truthyAt slots "titulo" then [] else ["titulo"])
  else if intent = some "consultar_disponibilidad" then
    (if truthyAt slots "desde" then [] else ["desde"])
    ++ (if truthyAt slots "hasta" then [] else ["hasta"])
  else if intent = some "actualizar" then
    (if truthyAt slots "event_id" then [] else ["event_id"])
    ++ (match dget slots "cambios" with
        | some (.vdict c) => if c.isEmpty then ["cambios"] else []
        | some _ => ["cambios"]
        | none => ["cambios"])
  else if intent = some "cancelar" then
    (if truthyAt slots "event_id" then [] else ["event_id"])
  else []

/-- The merge portion of `aplicar_extraccion_de_slots` (lines 117-136)
for an optional intent. -/
def aplicarMerges (intent : Option String) (slotsProp : Dict)
    (cambios : Option Dict) (slots : Dict) : Dict :=
  match intent with
  | some i => aplicarCambios i (mergeSlots slots slotsProp) cambios
  | none => mergeSlots slots slotsProp

/-- The event-resolution block of `aplicar_extraccion_de_slots`
(lines 139-153): only for update/cancel when `event_id` is not yet a key,
store the date criterion under `fecha_objetivo` and either the resolved
`event_id` or the non-empty candidate list under `opciones_evento`. -/
def aplicarResolver (env : Env) (intent : Option String)
    (fechaId : Option String) (acc : Dict) : Dict :=
  if (intent = some "actualizar" ∨ intent = some "cancelar")
      ∧ (dget acc "event_id").isNone = true then
    match fechaId with
    | some f =>
      if f = "" then acc
      else
        match env.resolver f with
        | (some e, ops) =>
          if e = "" then
            (if ops.isEmpty then dset acc "fecha_objetivo" (.vstr f)
             else dset (dset acc "fecha_objetivo" (.vstr f)) "opciones_evento" (.vopts ops))
          else dset (dset acc "fecha_objetivo" (.vstr f)) "event_id" (.vstr e)
        | (none, ops) =>
          if ops.isEmpty then dset acc "fecha_objetivo" (.vstr f)
          else dset (dset acc "fecha_objetivo" (.vstr f)) "opciones_evento" (.vopts ops)
    | none => acc
  else acc

/-- The full `aplicar_extraccion_de_slots` (lines 77-191) over the abstract
collaborators.  Returns `(updated slots, missing fields, consumed the
pending message)`; `none` models an uncaught Python exception. -/
def aplicar (env : Env) (intent : Option String) (msg : String)
    (slots : Dict) (pending : Option String) :
    Option (Dict × List String × Bool) :=
  let res := env.extraer intent (textoTurno msg pending) slots
  let acc := aplicarResolver env intent res.2.1 (aplicarMerges intent res.1 res.2.2 slots)
  match calcFaltantes intent acc with
  | none => none
  | some fs => some (acc, fs, strOptTruthy pending)

/-- Outcome of the event-selection resolution branch. -/
inductive SelOutcome where
  | pedirNumero : SelOutcome
  | fueraDeRango : SelOutcome
  | sinId : SelOutcome
  | elegido : Dict → SelOutcome

/-- The event-selection resolution branch (lines 435-464), up to and
including the commit that stores the choice: parse the first number of
the message, validate the index against the candidate list, read the
chosen tuple's event id, then set `event_id` and pop `opciones_evento`
and `awaiting`.  `none` models the `TypeError` of `len(opciones)` when
the candidate list is missing or not a list. -/
def seleccionPaso (slots : Dict) (msg : String) : Option SelOutcome :=
  match firstNumber (trimChars msg.data) with
  | none => some .pedirNumero
  | some n =>
    match dget slots "opciones_evento" with
    | some (.vopts os) =>
      if h : 1 ≤ n ∧ n - 1 < os.length then
        if (os.get ⟨n - 1, h.2⟩).eventId = "" then some .sinId
        else
          some (.elegido (derase (derase
            (dset slots "event_id" (.vstr (os.get ⟨n - 1, h.2⟩).eventId))
            "opciones_evento") "awaiting"))
      else some .fueraDeRango
    | _ => none

/-- The affirmative vocabulary of the confirmation sub-dialogue. -/
def AFIRMATIVAS : List String :=
  ["si", "sí", "dale", "ok", "okay", "correcto", "affirmative", "de una"]

/-- The negative vocabulary of the confirmation sub-dialogue. -/
def NEGATIVAS : List String := ["no", "mejor no", "nop"]

/-- The outbound reply of one turn, by template.  `crash` marks turns on
which the Python code raises an uncaught exception (the paired state is
what had been committed up to the raise). -/
inductive Outbound where
  | pedirNumero : Outbound
  | fueraDeRango : Outbound
  | sinId : Outbound
  | faltan : List String → Outbound
  | elegirEvento : List Opcion → Outbound
  | ejecutado : String → Outbound
  | preguntarCambio : String → Outbound
  | proponerCambio : String → String → Outbound
  | seguirCon : Option String → List String → Outbound
  | pedirIntencion : Outbound
  | crash : Outbound
deriving DecidableEq, Repr

/-- The selection branch of `receive` (lines 435-499): resolve the
choice, re-run `aplicar_extraccion_de_slots` on the updated slots with an
empty message, then answer with the still-missing fields or execute and
fully reset. -/
def selBranch (env : Env) (s : ConvState) (msg : String) : ConvState × Outbound :=
  match seleccionPaso s.slots msg with
  | none => (s, .crash)
  | some .pedirNumero => (s, .pedirNumero)
  | some .fueraDeRango => (s, .fueraDeRango)
  | some .sinId => (s, .sinId)
  | some (.elegido d) =>
    match aplicar env s.intentActual "" d none with
    | none => (⟨s.intentActual, d, s.pendingIntent, s.pendingMessage⟩, .crash)
    | some (d2, fs, _) =>
      if fs.isEmpty then (⟨none, [], none, none⟩, .ejecutado env.resumen)
      else (⟨s.intentActual, d2, s.pendingIntent, s.pendingMessage⟩, .faltan fs)

/-- The pending-intent confirmation branch of `receive` (lines 502-630).
On an affirmative reply the new intent is committed with empty slots,
extraction is re-run over the pending message followed by the reply, and
the turn continues to the candidate/missing/execute flow (the candidate
prompt here renders the stored tuples, lines 536-543).  On a negative
reply the pending fields are dropped and the inline missing-field summary
for the kept intent is sent.  Anything else re-asks the yes/no
question. -/
def pendBranch (env : Env) (s : ConvState) (p : String) (msg : String) :
    ConvState × Outbound :=
  let normalized := String.mk ((trimChars msg.data).map pyLowerChar)
  if AFIRMATIVAS.contains normalized then
    match aplicar env (some p) msg [] s.pendingMessage with
    | none => (⟨some p, [], none, s.pendingMessage⟩, .crash)
    | some (d2, fs, consumio) =>
      let pm2 := if consumio then none else s.pendingMessage
      if optValTruthy (dget d2 "opciones_evento") then
        (⟨some p, dset d2 "awaiting" (.vstr "event_selection"), none, pm2⟩,
          .elegirEvento (optsDe (dget d2 "opciones_evento")))
      else if fs.isEmpty then (⟨none, [], none, none⟩, .ejecutado env.resumen)
      else (⟨some p, d2, none, pm2⟩, .faltan fs)
  else if NEGATIVAS.contains normalized then
    (⟨s.intentActual, s.slots, none, none⟩,
      .seguirCon s.intentActual (faltantesNegativa s.intentActual s.slots))
  else (s, .preguntarCambio p)

/-- The carry-on sub-case of the normal turn (lines 721-779): keep the
current intent, re-run extraction over any pending message plus the
current text, then candidate (`crash`, see `turnoNormal`), missing or
execute-and-reset. -/
def turnoMismaIntencion (env : Env) (s : ConvState) (actual : String)
    (msg : String) : ConvState × Outbound :=
  match aplicar env (some actual) msg s.slots s.pendingMessage with
  | none => (s, .crash)
  | some (d2, fs, consumio) =>
    let pm2 := if consumio then none else s.pendingMessage
    if optValTruthy (dget d2 "opciones_evento") then
      (⟨some actual, dset d2 "awaiting" (.vstr "event_selection"),
        s.pendingIntent, pm2⟩, .crash)
    else if fs.isEmpty then (⟨none, [], none, none⟩, .ejecutado env.resumen)
    else (⟨some actual, d2, s.pendingIntent, pm2⟩, .faltan fs)

/-- The normal turn of `receive` (lines 632-779): classify, set or
propose the intent, extract and merge, then candidate/missing/execute.
The candidate prompt in these branches reads the stored tuples with
dict-style `ev.get(...)` (lines 670-675 and 743-748), which raises
`AttributeError` on the tuples the resolver stores — after the `awaiting`
commit — hence the `crash` outcome there. -/
def turnoNormal (env : Env) (s : ConvState) (msg : String) : ConvState × Outbound :=
  match s.intentActual with
  | none =>
    (match detect_intent msg with
     | none => (s, .pedirIntencion)
     | some it =>
       match aplicar env (some it) msg s.slots none with
       | none => (s, .crash)
       | some (d2, fs, _) =>
         if optValTruthy (dget d2 "opciones_evento") then
           (⟨some it, dset d2 "awaiting" (.vstr "event_selection"),
             s.pendingIntent, s.pendingMessage⟩, .crash)
         else if fs.isEmpty then (⟨none, [], none, none⟩, .ejecutado env.resumen)
         else (⟨some it, d2, s.pendingIntent, s.pendingMessage⟩, .faltan fs))
  | some actual =>
    match detect_intent msg with
    | some det =>
      if det ≠ actual then
        (⟨some actual, s.slots, some det, some msg⟩, .proponerCambio actual det)
      else
        turnoMismaIntencion env s actual msg
    | none => turnoMismaIntencion env s actual msg

/-- One conversational turn of `receive` (lines 435-779), after the
authorisation gate: the selection sub-dialogue first, then the pending
confirmation, then the normal turn. -/
def receiveStep (env : Env) (s : ConvState) (msg : String) : ConvState × Outbound :=
  if esperaSeleccion s.slots then selBranch env s msg
  else if strOptTruthy s.pendingIntent then
    pendBranch env s
      (match s.pendingIntent with
       | some p => p
       | none => "") msg
  else turnoNormal env s msg

/-- A concrete well-formed environment for closed evaluations: the
extractor proposes nothing (the reachable intent labels are outside the
`'crear'`/`'consultar_disponibilidad'`/`'actualizar'`/`'cancelar'`
protocol its docstring documents), the calendar has no events, and
execution summarises as `"hecho"`. -/
def envTrivial : Env := ⟨fun _ _ _ => ([], none, none), fun _ => (none, []), "hecho"⟩

/-- Reachability of a conversation state from the lazily created empty
row, under arbitrary messages and well-formed collaborators. -/
inductive Alcanzable : ConvState → Prop where
  | inicial : Alcanzable ⟨none, [], none, none⟩
  | paso (s : ConvState) (env : Env) (msg : String) :
      Alcanzable s → WFEnv env → Alcanzable (receiveStep env s msg).1

/-- The candidate-list discipline: any stored `opciones_evento` value is
a non-empty tuple list, and `awaiting` never outlives the candidates. -/
def invSlots (d : Dict) : Prop :=
  (∀ v, dget d "opciones_evento" = some v → ∃ os, v = Val.vopts os ∧ os ≠ [])
  ∧ ((dget d "awaiting").isSome = true → (dget d "opciones_evento").isSome = true)

/-! ## Theorems -/

/-! ### Association-list lemmas -/

theorem dget_dset_self (d : Dict) (k : String) (v : Val) :
    dget (dset d k v) k = some v := by
  induction d with
  | nil => simp [dset, dget]
  | cons kv rest ih =>
    obtain ⟨a, b⟩ := kv
    by_cases ha : a = k
    · simp [dset, ha, dget]
    · simp [dset, ha, dget, ih]

theorem dget_dset_ne (d : Dict) (k k' : String) (v : Val) (h : k' ≠ k) :
    dget (dset d k v) k' = dget d k' := by
  induction d with
  | nil =>
    simp [dset, dget]
    intro hk
    exact absurd hk.symm h
  | cons kv rest ih =>
    obtain ⟨a, b⟩ := kv
    by_cases ha : a = k
    · subst ha
      simp [dset, dget, if_neg (Ne.symm h)]
    · simp [dset, ha, dget, ih]

theorem dset_self_of_dget (d : Dict) (k : String) (v : Val) (h : dget d k = some v) :
    dset d k v = d := by
  induction d with
  | nil => simp [dget] at h
  | cons kv rest ih =>
    obtain ⟨a, b⟩ := kv
    by_cases ha : a = k
    · subst ha
      simp [dget] at h
      simp [dset, h]
    · simp [dget, ha] at h
      simp [dset, ha, ih h]

theorem dset_ne_nil (d : Dict) (k : String) (v : Val) : dset d k v ≠ [] := by
  cases d with
  | nil => simp [dset]
  | cons kv rest =>
    obtain ⟨a, b⟩ := kv
    by_cases ha : a = k <;> simp [dset, ha]

theorem dget_eq_some_of_mem (d : Dict) (kv : String × Val)
    (hnd : (dkeys d).Nodup) (hm : kv ∈ d) : dget d kv.1 = some kv.2 := by
  induction d with
  | nil => simp at hm
  | cons p rest ih =>
    obtain ⟨a, b⟩ := p
    have hnd' : a ∉ dkeys rest ∧ (dkeys rest).Nodup := by
      simpa [dkeys] using hnd
    rcases List.mem_cons.mp hm with h1 | h1
    · simp [h1, dget]
    · have hmem : kv.1 ∈ dkeys rest := by
        unfold dkeys
        exact List.mem_map_of_mem _ h1
      have hne : a ≠ kv.1 := by
        intro hc
        exact hnd'.1 (hc ▸ hmem)
      simp [dget, hne]
      exact ih hnd'.2 h1

/-! ### Behaviour of the fill-missing-only merge -/

theorem dget_mergeStep_ne (acc : Dict) (kv : String × Val) (k : String)
    (h : kv.1 ≠ k) : dget (mergeStep acc kv) k = dget acc k := by
  unfold mergeStep
  by_cases hn : kv.2.isNull
  · simp [hn]
  · simp [hn]
    cases hd : dget acc kv.1 with
    | none => simp [dget_dset_ne _ _ _ _ (Ne.symm h)]
    | some w =>
      by_cases hv : esVacio w
      · simp [hv, dget_dset_ne _ _ _ _ (Ne.symm h)]
      · simp [hv]

theorem dget_mergeSlots_not_mem (prop : Dict) (cur : Dict) (k : String)
    (h : k ∉ dkeys prop) : dget (mergeSlots cur prop) k = dget cur k := by
  induction prop generalizing cur with
  | nil => rfl
  | cons kv rest ih =>
    have hk1 : k ≠ kv.1 := by
      intro hc
      exact h (by simp [dkeys, hc])
    have hk2 : k ∉ dkeys rest := by
      intro hc
      exact h (by simp [dkeys]; right; simpa [dkeys] using hc)
    have hstep : mergeSlots cur (kv :: rest) = mergeSlots (mergeStep cur kv) rest := rfl
    rw [hstep, ih _ hk2, dget_mergeStep_ne _ _ _ (Ne.symm hk1)]

theorem mergeStep_of_done (acc : Dict) (kv : String × Val) (h : mergeDone acc kv) :
    mergeStep acc kv = acc := by
  rcases h with h | ⟨w, hw, hc⟩
  · unfold mergeStep
    simp [h]
  · unfold mergeStep
    by_cases hn : kv.2.isNull
    · simp [hn]
    · simp [hn, hw]
      rcases hc with hc | hc
      · simp [hc]
      · by_cases hv : esVacio w
        · simp [hv, ← hc, dset_self_of_dget _ _ _ hw]
        · simp [hv]

theorem mergeStep_establishes (acc : Dict) (kv : String × Val) :
    mergeDone (mergeStep acc kv) kv := by
  by_cases hn : kv.2.isNull
  · exact Or.inl hn
  · right
    unfold mergeStep
    simp [hn]
    cases hd : dget acc kv.1 with
    | none => exact ⟨kv.2, by simp [hd, dget_dset_self], Or.inr rfl⟩
    | some w =>
      by_cases hv : esVacio w
      · exact ⟨kv.2, by simp [hd, hv, dget_dset_self], Or.inr rfl⟩
      · exact ⟨w, by simp [hd, hv], Or.inl (by simpa using hv)⟩

theorem mergeDone_of_dget_eq (acc acc' : Dict) (kv : String × Val)
    (hd : dget acc' kv.1 = dget acc kv.1) (h : mergeDone acc kv) : mergeDone acc' kv := by
  rcases h with h | ⟨w, hw, hc⟩
  · exact Or.inl h
  · exact Or.inr ⟨w, by rw [hd, hw], hc⟩

theorem mergeSlots_of_done (prop : Dict) (acc : Dict)
    (h : ∀ kv ∈ prop, mergeDone acc kv) : mergeSlots acc prop = acc := by
  induction prop with
  | nil => rfl
  | cons kv rest ih =>
    have h1 : mergeStep acc kv = acc := mergeStep_of_done _ _ (h kv (by simp))
    have hstep : mergeSlots acc (kv :: rest) = mergeSlots (mergeStep acc kv) rest := rfl
    rw [hstep, h1, ih (fun p hp => h p (by simp [hp]))]

theorem mergeSlots_establishes (prop : Dict) (acc : Dict)
    (hnd : (dkeys prop).Nodup) :
    ∀ kv ∈ prop, mergeDone (mergeSlots acc prop) kv := by
  induction prop generalizing acc with
  | nil => intro kv h; simp at h
  | cons p rest ih =>
    have hnd' : p.1 ∉ dkeys rest ∧ (dkeys rest).Nodup := by
      simpa [dkeys] using hnd
    intro kv hkv
    have hfold : mergeSlots acc (p :: rest) = mergeSlots (mergeStep acc p) rest := rfl
    rcases List.mem_cons.mp hkv with h1 | h1
    · subst h1
      rw [hfold]
      refine mergeDone_of_dget_eq _ _ _ ?_ (mergeStep_establishes acc kv)
      exact dget_mergeSlots_not_mem _ _ _ hnd'.1
    · rw [hfold]
      exact ih _ hnd'.2 kv h1

theorem mergeSlots_idem (cur prop : Dict) (hnd : (dkeys prop).Nodup) :
    mergeSlots (mergeSlots cur prop) prop = mergeSlots cur prop :=
  mergeSlots_of_done _ _ (mergeSlots_establishes prop cur hnd)

theorem camStep_of_done (base : Dict) (kv : String × Val) (h : camDone base kv) :
    camStep base kv = base := by
  rcases h with ⟨w, hw, hc⟩
  unfold camStep
  simp [hw]
  rcases hc with hc | hc
  · simp [hc]
  · by_cases hv : esVacio w
    · simp [hv, ← hc, dset_self_of_dget _ _ _ hw]
    · simp [hv]

theorem camStep_establishes (base : Dict) (kv : String × Val) :
    camDone (camStep base kv) kv := by
  unfold camStep
  cases hd : dget base kv.1 with
  | none => exact ⟨kv.2, by simp [hd, dget_dset_self], Or.inr rfl⟩
  | some w =>
    by_cases hv : esVacio w
    · exact ⟨kv.2, by simp [hd, hv, dget_dset_self], Or.inr rfl⟩
    · exact ⟨w, by simp [hd, hv], Or.inl (by simpa using hv)⟩

theorem camDone_of_dget_eq (base base' : Dict) (kv : String × Val)
    (hd : dget base' kv.1 = dget base kv.1) (h : camDone base kv) : camDone base' kv := by
  rcases h with ⟨w, hw, hc⟩
  exact ⟨w, by rw [hd, hw], hc⟩

theorem dget_camStep_ne (base : Dict) (kv : String × Val) (k : String)
    (h : kv.1 ≠ k) : dget (camStep base kv) k = dget base k := by
  unfold camStep
  cases hd : dget base kv.1 with
  | none => simp [dget_dset_ne _ _ _ _ (Ne.symm h)]
  | some w =>
    by_cases hv : esVacio w
    · simp [hv, dget_dset_ne _ _ _ _ (Ne.symm h)]
    · simp [hv]

theorem dget_mergeCambios_not_mem (c : Dict) (base : Dict) (k : String)
    (h : k ∉ dkeys c) : dget (mergeCambiosDict base c) k = dget base k := by
  induction c generalizing base with
  | nil => rfl
  | cons kv rest ih =>
    have hk1 : k ≠ kv.1 := by
      intro hc
      exact h (by simp [dkeys, hc])
    have hk2 : k ∉ dkeys rest := by
      intro hc
      exact h (by simp [dkeys]; right; simpa [dkeys] using hc)
    have hstep : mergeCambiosDict base (kv :: rest) = mergeCambiosDict (camStep base kv) rest := rfl
    rw [hstep, ih _ hk2, dget_camStep_ne _ _ _ (Ne.symm hk1)]

theorem mergeCambios_of_done (c : Dict) (base : Dict)
    (h : ∀ kv ∈ c, camDone base kv) : mergeCambiosDict base c = base := by
  induction c with
  | nil => rfl
  | cons kv rest ih =>
    have h1 : camStep base kv = base := camStep_of_done _ _ (h kv (by simp))
    have hstep : mergeCambiosDict base (kv :: rest) = mergeCambiosDict (camStep base kv) rest := rfl
    rw [hstep, h1, ih (fun p hp => h p (by simp [hp]))]

theorem mergeCambios_establishes (c : Dict) (base : Dict)
    (hnd : (dkeys c).Nodup) :
    ∀ kv ∈ c, camDone (mergeCambiosDict base c) kv := by
  induction c generalizing base with
  | nil => intro kv h; simp at h
  | cons p rest ih =>
    have hnd' : p.1 ∉ dkeys rest ∧ (dkeys rest).Nodup := by
      simpa [dkeys] using hnd
    intro kv hkv
    have hfold : mergeCambiosDict base (p :: rest) = mergeCambiosDict (camStep base p) rest := rfl
    rcases List.mem_cons.mp hkv with h1 | h1
    · subst h1
      rw [hfold]
      refine camDone_of_dget_eq _ _ _ ?_ (camStep_establishes base kv)
      exact dget_mergeCambios_not_mem _ _ _ hnd'.1
    · rw [hfold]
      exact ih _ hnd'.2 kv h1

theorem camStep_ne_nil (base : Dict) (kv : String × Val) : camStep base kv ≠ [] := by
  unfold camStep
  cases hd : dget base kv.1 with
  | none => simp [dset_ne_nil]
  | some w =>
    by_cases hv : esVacio w
    · simp [hv, dset_ne_nil]
    · simp [hv]
      cases base with
      | nil => simp [dget] at hd
      | cons p rest => simp

theorem mergeCambios_ne_nil_of_acc (c : Dict) (base : Dict) (h : base ≠ []) :
    mergeCambiosDict base c ≠ [] := by
  induction c generalizing base with
  | nil => exact h
  | cons kv rest ih =>
    have hstep : mergeCambiosDict base (kv :: rest) = mergeCambiosDict (camStep base kv) rest := rfl
    rw [hstep]
    exact ih _ (camStep_ne_nil base kv)

theorem mergeCambiosDict_ne_nil (base c : Dict) (hc : c ≠ []) :
    mergeCambiosDict base c ≠ [] := by
  cases c with
  | nil => exact absurd rfl hc
  | cons kv rest =>
    have hstep : mergeCambiosDict base (kv :: rest) = mergeCambiosDict (camStep base kv) rest := rfl
    rw [hstep]
    exact mergeCambios_ne_nil_of_acc _ _ (camStep_ne_nil base kv)

/-! ### Keep / fill characterisation of the merges -/

theorem mergeSlots_keep (prop : Dict) (cur : Dict) (k : String) (v : Val)
    (hv : dget cur k = some v) (hne : esVacio v = false) :
    dget (mergeSlots cur prop) k = some v := by
  induction prop generalizing cur with
  | nil => exact hv
  | cons p rest ih =>
    have hstep : mergeSlots cur (p :: rest) = mergeSlots (mergeStep cur p) rest := rfl
    rw [hstep]
    apply ih
    by_cases hk : p.1 = k
    · unfold mergeStep
      by_cases hn : p.2.isNull
      · simpa [hn] using hv
      · simp [hn, hk, hv, hne]
    · rw [dget_mergeStep_ne _ _ _ hk]
      exact hv

theorem mergeSlots_fill (prop : Dict) (cur : Dict) (k : String) (w : Val)
    (hnd : (dkeys prop).Nodup)
    (hcur : dget cur k = none ∨ ∃ v, dget cur k = some v ∧ esVacio v = true)
    (hp : dget prop k = some w) (hw : w.isNull = false) :
    dget (mergeSlots cur prop) k = some w := by
  induction prop generalizing cur with
  | nil => simp [dget] at hp
  | cons p rest ih =>
    obtain ⟨a, b⟩ := p
    have hnd' : a ∉ dkeys rest ∧ (dkeys rest).Nodup := by
      simpa [dkeys] using hnd
    have hstep : mergeSlots cur ((a, b) :: rest) = mergeSlots (mergeStep cur (a, b)) rest := rfl
    rw [hstep]
    by_cases hk : a = k
    · have hpw : b = w := by
        simpa [dget, hk] using hp
      have hset : dget (mergeStep cur (a, b)) k = some w := by
        unfold mergeStep
        by_cases hn : (a, b).2.isNull
        · simp only at hn
          rw [hpw] at hn
          rw [hn] at hw
          cases hw
        · rcases hcur with hc | ⟨v, hv, hvac⟩
          · simp [hn, hk, hc, dget_dset_self, hpw, hw]
          · simp [hn, hk, hv, hvac, dget_dset_self, hpw, hw]
      rw [dget_mergeSlots_not_mem rest _ _ (hk ▸ hnd'.1)]
      exact hset
    · have hp' : dget rest k = some w := by
        simpa [dget, hk] using hp
      have hcur' : dget (mergeStep cur (a, b)) k = none
          ∨ ∃ v, dget (mergeStep cur (a, b)) k = some v ∧ esVacio v = true := by
        rw [dget_mergeStep_ne _ _ _ hk]
        exact hcur
      exact ih _ hnd'.2 hcur' hp'

theorem mergeCambios_keep (c : Dict) (base : Dict) (k : String) (v : Val)
    (hv : dget base k = some v) (hne : esVacio v = false) :
    dget (mergeCambiosDict base c) k = some v := by
  induction c generalizing base with
  | nil => exact hv
  | cons p rest ih =>
    have hstep : mergeCambiosDict base (p :: rest) = mergeCambiosDict (camStep base p) rest := rfl
    rw [hstep]
    apply ih
    by_cases hk : p.1 = k
    · unfold camStep
      simp only [hk, hv]
      simpa [hne] using hv
    · rw [dget_camStep_ne _ _ _ hk]
      exact hv

theorem mergeCambios_fill (c : Dict) (base : Dict) (k : String) (w : Val)
    (hnd : (dkeys c).Nodup)
    (hbase : dget base k = none ∨ ∃ v, dget base k = some v ∧ esVacio v = true)
    (hp : dget c k = some w) :
    dget (mergeCambiosDict base c) k = some w := by
  induction c generalizing base with
  | nil => simp [dget] at hp
  | cons p rest ih =>
    obtain ⟨a, b⟩ := p
    have hnd' : a ∉ dkeys rest ∧ (dkeys rest).Nodup := by
      simpa [dkeys] using hnd
    have hstep : mergeCambiosDict base ((a, b) :: rest) = mergeCambiosDict (camStep base (a, b)) rest := rfl
    rw [hstep]
    by_cases hk : a = k
    · have hpw : b = w := by
        simpa [dget, hk] using hp
      have hset : dget (camStep base (a, b)) k = some w := by
        unfold camStep
        rcases hbase with hc | ⟨v, hv, hvac⟩
        · simp [hk, hc, dget_dset_self, hpw]
        · simp [hk, hv, hvac, dget_dset_self, hpw]
      rw [dget_mergeCambios_not_mem rest _ _ (hk ▸ hnd'.1)]
      exact hset
    · have hp' : dget rest k = some w := by
        simpa [dget, hk] using hp
      have hbase' : dget (camStep base (a, b)) k = none
          ∨ ∃ v, dget (camStep base (a, b)) k = some v ∧ esVacio v = true := by
        rw [dget_camStep_ne _ _ _ hk]
        exact hbase
      exact ih _ hnd'.2 hbase' hp'

/-! ### `aplicarCambios` structure -/

theorem aplicarCambios_sets (acc : Dict) (c : Dict)
    (hnd : (dkeys c).Nodup) (hce : ¬ c.isEmpty = true) :
    ∃ d, aplicarCambios "actualizar" acc (some c) = dset acc "cambios" (.vdict d)
       ∧ d ≠ [] ∧ ∀ kv ∈ c, camDone d kv := by
  have hcne : c ≠ [] := by
    cases c
    · simp at hce
    · simp
  unfold aplicarCambios
  simp only [if_pos rfl, hce, Bool.false_eq_true, if_false]
  cases hd : dget acc "cambios" with
  | none =>
    exact ⟨c, by simp [hce], hcne,
      fun kv h => ⟨kv.2, dget_eq_some_of_mem c kv hnd h, Or.inr rfl⟩⟩
  | some v =>
    cases v with
    | vdict base =>
      exact ⟨mergeCambiosDict base c, by simp [hce], mergeCambiosDict_ne_nil base c hcne,
        mergeCambios_establishes c base hnd⟩
    | vnull =>
      exact ⟨c, by simp [hce], hcne,
        fun kv h => ⟨kv.2, dget_eq_some_of_mem c kv hnd h, Or.inr rfl⟩⟩
    | vstr s =>
      exact ⟨c, by simp [hce], hcne,
        fun kv h => ⟨kv.2, dget_eq_some_of_mem c kv hnd h, Or.inr rfl⟩⟩
    | vlist l =>
      exact ⟨c, by simp [hce], hcne,
        fun kv h => ⟨kv.2, dget_eq_some_of_mem c kv hnd h, Or.inr rfl⟩⟩
    | vopts o =>
      exact ⟨c, by simp [hce], hcne,
        fun kv h => ⟨kv.2, dget_eq_some_of_mem c kv hnd h, Or.inr rfl⟩⟩

/-! ### Claims C3 and C4 -/

/-- C3: merging an extracted slot proposal into the current slots is
fill-missing-only: a slot with a present, non-empty value keeps that value
and is never overwritten by a proposal; a missing or empty slot takes the
(non-`None`) proposed value.  Under intent `"actualizar"` the stored
`cambios` dict is merged key by key under the same rule: non-empty stored
changes are kept, missing or empty ones take the extracted change, and the
slot `cambios` itself is replaced by exactly that key-by-key merge. -/
theorem c3_fill_missing_only (cur prop c : Dict) (k : String)
    (hndp : (dkeys prop).Nodup) (hndc : (dkeys c).Nodup) :
    (∀ v, dget cur k = some v → esVacio v = false →
        dget (mergeSlots cur prop) k = some v)
  ∧ (∀ w, (dget cur k = none ∨ ∃ v, dget cur k = some v ∧ esVacio v = true) →
        dget prop k = some w → w.isNull = false →
        dget (mergeSlots cur prop) k = some w)
  ∧ (∀ base v, dget base k = some v → esVacio v = false →
        dget (mergeCambiosDict base c) k = some v)
  ∧ (∀ base w, (dget base k = none ∨ ∃ v, dget base k = some v ∧ esVacio v = true) →
        dget c k = some w → dget (mergeCambiosDict base c) k = some w)
  ∧ (∀ base, dget (mergeSlots cur prop) "cambios" = some (.vdict base) → ¬ c.isEmpty = true →
        dget (mergePropuesta "actualizar" cur prop (some c)) "cambios"
          = some (.vdict (mergeCambiosDict base c))) := by
  refine ⟨fun v hv hne => mergeSlots_keep prop cur k v hv hne,
    fun w hcur hp hw => mergeSlots_fill prop cur k w hndp hcur hp hw,
    fun base v hv hne => mergeCambios_keep c base k v hv hne,
    fun base w hbase hp => mergeCambios_fill c base k w hndc hbase hp,
    fun base hbase hce => ?_⟩
  unfold mergePropuesta aplicarCambios
  simp [hce, hbase, dget_dset_self]

/-- Witness for C3, the spec's own example: merging the proposal
`{titulo: "B", inicio: "t1"}` into `{titulo: "A"}` keeps `titulo = "A"`
and fills `inicio = "t1"`. -/
theorem c3_fill_missing_only_witness :
    dget (mergeSlots [("titulo", Val.vstr "A")]
        [("titulo", Val.vstr "B"), ("inicio", Val.vstr "t1")]) "titulo"
      = some (Val.vstr "A")
  ∧ dget (mergeSlots [("titulo", Val.vstr "A")]
        [("titulo", Val.vstr "B"), ("inicio", Val.vstr "t1")]) "inicio"
      = some (Val.vstr "t1") := by
  constructor
  · exact (c3_fill_missing_only [("titulo", Val.vstr "A")]
      [("titulo", Val.vstr "B"), ("inicio", Val.vstr "t1")] [] "titulo"
      (by decide) (by decide)).1 (Val.vstr "A") rfl (by decide)
  · exact (c3_fill_missing_only [("titulo", Val.vstr "A")]
      [("titulo", Val.vstr "B"), ("inicio", Val.vstr "t1")] [] "inicio"
      (by decide) (by decide)).2.1 (Val.vstr "t1") (Or.inl rfl) rfl (by decide)

/-- C4: re-applying the very same extracted proposal (slots and, under
`"actualizar"`, the extracted `cambios`) a second time leaves the merged
slots exactly as after the first application. -/
theorem c4_merge_idempotente (intent : String) (cur prop : Dict) (cam : Option Dict)
    (hndp : (dkeys prop).Nodup)
    (hndc : ∀ c, cam = some c → (dkeys c).Nodup) :
    mergePropuesta intent (mergePropuesta intent cur prop cam) prop cam
      = mergePropuesta intent cur prop cam := by
  by_cases hi : intent = "actualizar"
  · subst hi
    cases cam with
    | none =>
      have hnoop : ∀ acc : Dict, aplicarCambios "actualizar" acc none = acc := by
        intro acc
        unfold aplicarCambios
        simp
      simp only [mergePropuesta, hnoop]
      exact mergeSlots_idem cur prop hndp
    | some c =>
      by_cases hce : c.isEmpty
      · have hnoop : ∀ acc : Dict, aplicarCambios "actualizar" acc (some c) = acc := by
          intro acc
          unfold aplicarCambios
          simp [hce]
        simp only [mergePropuesta, hnoop]
        exact mergeSlots_idem cur prop hndp
      · obtain ⟨d, hset, hdne, hdone⟩ :=
          aplicarCambios_sets (mergeSlots cur prop) c (hndc c rfl) hce
        have hget : dget (dset (mergeSlots cur prop) "cambios" (.vdict d)) "cambios"
            = some (.vdict d) := dget_dset_self _ _ _
        have hms : mergeSlots (dset (mergeSlots cur prop) "cambios" (.vdict d)) prop
            = dset (mergeSlots cur prop) "cambios" (.vdict d) := by
          apply mergeSlots_of_done
          intro kv hkv
          by_cases hk : kv.1 = "cambios"
          · exact Or.inr ⟨.vdict d, by rw [hk, hget],
              Or.inl (by simpa [esVacio, List.isEmpty_iff] using hdne)⟩
          · refine mergeDone_of_dget_eq (mergeSlots cur prop) _ kv ?_
              (mergeSlots_establishes prop cur hndp kv hkv)
            exact dget_dset_ne _ _ _ _ hk
        have hac : aplicarCambios "actualizar"
            (dset (mergeSlots cur prop) "cambios" (.vdict d)) (some c)
            = dset (mergeSlots cur prop) "cambios" (.vdict d) := by
          unfold aplicarCambios
          simp only [if_pos rfl, hce, Bool.false_eq_true, if_false, hget]
          rw [mergeCambios_of_done c d hdone]
          exact dset_self_of_dget _ _ _ hget
        show aplicarCambios "actualizar"
            (mergeSlots (aplicarCambios "actualizar" (mergeSlots cur prop) (some c)) prop)
            (some c)
          = aplicarCambios "actualizar" (mergeSlots cur prop) (some c)
        rw [hset, hms, hac]
  · have hnoop : ∀ acc : Dict, aplicarCambios intent acc cam = acc := by
      intro acc
      unfold aplicarCambios
      simp [hi]
    simp only [mergePropuesta, hnoop]
    exact mergeSlots_idem cur prop hndp

/-- Witness for C4 at a concrete update-intent merge with stored changes,
a proposal and freshly extracted changes. -/
theorem c4_merge_idempotente_witness :
    mergePropuesta "actualizar"
        (mergePropuesta "actualizar"
          [("cambios", Val.vdict [("titulo", Val.vstr "X")]), ("inicio", Val.vstr "")]
          [("inicio", Val.vstr "i"), ("fecha_objetivo", Val.vstr "2025-01-01")]
          (some [("titulo", Val.vstr "Y"), ("fin", Val.vstr "f")]))
        [("inicio", Val.vstr "i"), ("fecha_objetivo", Val.vstr "2025-01-01")]
        (some [("titulo", Val.vstr "Y"), ("fin", Val.vstr "f")])
      = mergePropuesta "actualizar"
          [("cambios", Val.vdict [("titulo", Val.vstr "X")]), ("inicio", Val.vstr "")]
          [("inicio", Val.vstr "i"), ("fecha_objetivo", Val.vstr "2025-01-01")]
          (some [("titulo", Val.vstr "Y"), ("fin", Val.vstr "f")]) :=
  c4_merge_idempotente "actualizar"
    [("cambios", Val.vdict [("titulo", Val.vstr "X")]), ("inicio", Val.vstr "")]
    [("inicio", Val.vstr "i"), ("fecha_objetivo", Val.vstr "2025-01-01")]
    (some [("titulo", Val.vstr "Y"), ("fin", Val.vstr "f")])
    (by decide)
    (by
      intro c hc
      cases hc
      decide)

/-- C9: the intent classifier is a pure function of the lower-cased,
diacritic-stripped text; the four rule sets are evaluated in the fixed
order CREATE, CANCEL, UPDATE, QUERY_AVAILABILITY (labels `"CREATE_EVENT"`,
`"CANCEL_EVENT"`, `"UPDATE_EVENT"`, `"CHECK_AVAILABILITY"` in the source),
the first rule set that matches wins, and `none` is returned when no rule
set matches. -/
theorem c9_orden_de_evaluacion (text : String) :
    (detect_intent text = some "CREATE_EVENT"
      ↔ matchesAny CREATE_KEYWORDS (normalizar text) = true)
  ∧ (detect_intent text = some "CANCEL_EVENT"
      ↔ matchesAny CREATE_KEYWORDS (normalizar text) = false
        ∧ matchesAny CANCEL_KEYWORDS (normalizar text) = true)
  ∧ (detect_intent text = some "UPDATE_EVENT"
      ↔ matchesAny CREATE_KEYWORDS (normalizar text) = false
        ∧ matchesAny CANCEL_KEYWORDS (normalizar text) = false
        ∧ matchesAny UPDATE_KEYWORDS (normalizar text) = true)
  ∧ (detect_intent text = some "CHECK_AVAILABILITY"
      ↔ matchesAny CREATE_KEYWORDS (normalizar text) = false
        ∧ matchesAny CANCEL_KEYWORDS (normalizar text) = false
        ∧ matchesAny UPDATE_KEYWORDS (normalizar text) = false
        ∧ matchesAny CHECK_AVAILABILITY_KEYWORDS (normalizar text) = true)
  ∧ (detect_intent text = none
      ↔ matchesAny CREATE_KEYWORDS (normalizar text) = false
        ∧ matchesAny CANCEL_KEYWORDS (normalizar text) = false
        ∧ matchesAny UPDATE_KEYWORDS (normalizar text) = false
        ∧ matchesAny CHECK_AVAILABILITY_KEYWORDS (normalizar text) = false) := by
  unfold detect_intent
  by_cases h1 : matchesAny CREATE_KEYWORDS (normalizar text) <;>
    by_cases h2 : matchesAny CANCEL_KEYWORDS (normalizar text) <;>
      by_cases h3 : matchesAny UPDATE_KEYWORDS (normalizar text) <;>
        by_cases h4 : matchesAny CHECK_AVAILABILITY_KEYWORDS (normalizar text) <;>
          simp [h1, h2, h3, h4]

/-! ### The candidate order is a total preorder -/

theorem strLtB_irrefl (s : List Nat) : strLtB s s = false := by
  induction s with
  | nil => rfl
  | cons a as ih => simp [strLtB, ih]

theorem strLtB_trans (x : List Nat) : ∀ y z : List Nat,
    strLtB x y = true → strLtB y z = true → strLtB x z = true := by
  induction x with
  | nil =>
    intro y z hxy hyz
    cases y with
    | nil => simp [strLtB] at hxy
    | cons b bs =>
      cases z with
      | nil => simp [strLtB] at hyz
      | cons c cs => simp [strLtB]
  | cons a as ih =>
    intro y z hxy hyz
    cases y with
    | nil => simp [strLtB] at hxy
    | cons b bs =>
      cases z with
      | nil => simp [strLtB] at hyz
      | cons c cs =>
        simp [strLtB] at hxy hyz ⊢
        rcases hxy with h1 | ⟨rfl, h2⟩
        · rcases hyz with g1 | ⟨rfl, g2⟩
          · exact Or.inl (Nat.lt_trans h1 g1)
          · exact Or.inl h1
        · rcases hyz with g1 | ⟨rfl, g2⟩
          · exact Or.inl g1
          · exact Or.inr ⟨rfl, ih bs cs h2 g2⟩

theorem strLtB_asymm (x y : List Nat) (h : strLtB x y = true) :
    strLtB y x = false := by
  by_contra hc
  have hyx : strLtB y x = true := by
    simpa using hc
  have hxx := strLtB_trans x y x h hyx
  rw [strLtB_irrefl] at hxx
  cases hxx

theorem strLtB_neg_trans (x : List Nat) : ∀ y z : List Nat,
    strLtB y x = false → strLtB z y = false → strLtB z x = false := by
  induction x with
  | nil =>
    intro y z hyx hzy
    cases z with
    | nil => rfl
    | cons c cs => rfl
  | cons a as ih =>
    intro y z hyx hzy
    cases z with
    | nil =>
      cases y with
      | nil => exact hyx
      | cons b bs => simp [strLtB] at hzy
    | cons c cs =>
      cases y with
      | nil => simp [strLtB] at hyx
      | cons b bs =>
        simp [strLtB] at hyx hzy ⊢
        have hba : ¬ b < a := by
          intro hlt
          exact absurd hyx.1 (by simpa using hlt)
        have hcb : ¬ c < b := by
          intro hlt
          exact absurd hzy.1 (by simpa using hlt)
        constructor
        · omega
        · intro hca
          have hab : a = b := by omega
          have hbc : b = c := by omega
          exact ih bs cs (hyx.2 hab.symm) (hzy.2 hbc.symm)

theorem opcionLe_trans (a b c : Opcion) (h1 : opcionLe a b = true)
    (h2 : opcionLe b c = true) : opcionLe a c = true := by
  unfold opcionLe at h1 h2 ⊢
  simp at h1 h2 ⊢
  rcases h1 with h1 | ⟨e1, n1⟩
  · rcases h2 with h2 | ⟨e2, n2⟩
    · exact Or.inl (Nat.lt_trans h1 h2)
    · exact Or.inl (e2 ▸ h1)
  · rcases h2 with h2 | ⟨e2, n2⟩
    · exact Or.inl (e1 ▸ h2)
    · exact Or.inr ⟨e1.trans e2, strLtB_neg_trans _ _ _ n1 n2⟩

theorem opcionLe_total (a b : Opcion) : (opcionLe a b || opcionLe b a) = true := by
  unfold opcionLe
  simp
  rcases Nat.lt_trichotomy (claveOpcion a).1 (claveOpcion b).1 with h | h | h
  · exact Or.inl (Or.inl h)
  · by_cases hs : strLtB (claveOpcion b).2 (claveOpcion a).2
    · exact Or.inr (Or.inr ⟨h.symm, strLtB_asymm _ _ hs⟩)
    · exact Or.inl (Or.inr ⟨h, by simpa using hs⟩)
  · exact Or.inr (Or.inl h)

theorem insOrdenado_perm (le : Opcion → Opcion → Bool) (x : Opcion) (l : List Opcion) :
    (insOrdenado le x l).Perm (x :: l) := by
  induction l with
  | nil => exact List.Perm.refl _
  | cons y ys ih =>
    unfold insOrdenado
    by_cases h : le x y
    · simp [h]
    · simp only [h, Bool.false_eq_true, if_false]
      exact (ih.cons y).trans (List.Perm.swap x y ys)

theorem ordenarEstable_perm (le : Opcion → Opcion → Bool) (l : List Opcion) :
    (ordenarEstable le l).Perm l := by
  induction l with
  | nil => exact List.Perm.refl _
  | cons x xs ih =>
    exact (insOrdenado_perm le x (ordenarEstable le xs)).trans (ih.cons x)

theorem pairwise_insOrdenado (le : Opcion → Opcion → Bool)
    (htrans : ∀ a b c, le a b = true → le b c = true → le a c = true)
    (htot : ∀ a b, (le a b || le b a) = true)
    (x : Opcion) (l : List Opcion)
    (hl : l.Pairwise (fun a b => le a b = true)) :
    (insOrdenado le x l).Pairwise (fun a b => le a b = true) := by
  induction l with
  | nil => simp [insOrdenado]
  | cons y ys ih =>
    rcases List.pairwise_cons.mp hl with ⟨hy, hys⟩
    unfold insOrdenado
    by_cases h : le x y
    · rw [if_pos h]
      refine List.pairwise_cons.mpr ⟨?_, hl⟩
      intro z hz
      rcases List.mem_cons.mp hz with rfl | hz
      · exact h
      · exact htrans x y z h (hy z hz)
    · have hyx : le y x = true := by
        have := htot x y
        rcases Bool.or_eq_true_iff.mp this with h' | h'
        · exact absurd h' h
        · exact h'
      rw [if_neg h]
      refine List.pairwise_cons.mpr ⟨?_, ih hys⟩
      intro z hz
      have hz' : z ∈ x :: ys := (insOrdenado_perm le x ys).subset hz
      rcases List.mem_cons.mp hz' with rfl | hz'
      · exact hyx
      · exact hy z hz'

theorem pairwise_ordenarEstable (le : Opcion → Opcion → Bool)
    (htrans : ∀ a b c, le a b = true → le b c = true → le a c = true)
    (htot : ∀ a b, (le a b || le b a) = true)
    (l : List Opcion) :
    (ordenarEstable le l).Pairwise (fun a b => le a b = true) := by
  induction l with
  | nil => simp [ordenarEstable]
  | cons x xs ih => exact pairwise_insOrdenado le htrans htot x _ ih

/-! ### Claims C6 and C8 -/

/-- C8: for a malformed (unparseable) date criterion the resolver returns
`(none, [])` instead of raising: the `ValueError` of `date.fromisoformat`
is caught at the top of `resolver_evento_id`. -/
theorem c8_fecha_malformada (f : String) (items : List Event)
    (h : parseFecha f = none) :
    resolver_evento_id f items = (none, []) := by
  unfold resolver_evento_id
  simp [h]

/-- Witness for C8: the non-date criterion `"mañana"` with a non-empty
event list. -/
theorem c8_fecha_malformada_witness :
    resolver_evento_id "mañana"
      [⟨some "e1", some "Reunión", none,
        ⟨some "2025-03-10T09:00:00-03:00", none⟩,
        ⟨some "2025-03-10T10:00:00-03:00", none⟩⟩] = (none, []) :=
  c8_fecha_malformada "mañana" _ (by decide)

/-- C6 (amended: the source has no cap on the candidate list): over the
local-timezone day window the resolver returns `(none, [])` with zero
non-cancelled events, `(thatId, [])` with exactly one, and with more than
one `(none, candidates)` where `candidates` holds the
`(title, eventId, displayStart, displayEnd)` tuple of every non-cancelled
event — one per event, no cap — stably sorted by the key that puts
day-long events first and orders timed events by their start-time
string. -/
theorem c6_resolver (f : String) (items : List Event)
    (h : (parseFecha f).isSome = true) :
    (items.filter (fun ev => ev.status ≠ some "cancelled") = [] →
       resolver_evento_id f items = (none, []))
  ∧ (∀ e, items.filter (fun ev => ev.status ≠ some "cancelled") = [e] →
       resolver_evento_id f items = (e.id, []))
  ∧ (2 ≤ (items.filter (fun ev => ev.status ≠ some "cancelled")).length →
       (resolver_evento_id f items).1 = none
     ∧ (resolver_evento_id f items).2
         = ordenarEstable opcionLe
             ((items.filter (fun ev => ev.status ≠ some "cancelled")).map
                formatoOpcion)
     ∧ ((resolver_evento_id f items).2).Pairwise (fun a b => opcionLe a b = true)
     ∧ ((resolver_evento_id f items).2).length
         = (items.filter (fun ev => ev.status ≠ some "cancelled")).length) := by
  obtain ⟨d, hd⟩ := Option.isSome_iff_exists.mp h
  refine ⟨?_, ?_, ?_⟩
  · intro hnil
    unfold resolver_evento_id
    rw [hd, hnil]
  · intro e hone
    unfold resolver_evento_id
    rw [hd, hone]
  · intro hlen
    cases hv : items.filter (fun ev => ev.status ≠ some "cancelled") with
    | nil =>
      rw [hv] at hlen
      simp at hlen
    | cons e1 rest =>
      cases rest with
      | nil =>
        rw [hv] at hlen
        simp at hlen
      | cons e2 rest2 =>
        have hres : resolver_evento_id f items
            = (none, ordenarEstable opcionLe ((e1 :: e2 :: rest2).map formatoOpcion)) := by
          unfold resolver_evento_id
          rw [hd, hv]
        refine ⟨by simp [hres], by simp [hres], ?_, ?_⟩
        · rw [hres]
          exact pairwise_ordenarEstable opcionLe
            (fun a b c => opcionLe_trans a b c) opcionLe_total _
        · rw [hres]
          have hperm := ordenarEstable_perm opcionLe ((e1 :: e2 :: rest2).map formatoOpcion)
          simpa using hperm.length_eq

/-- Witness for C6 at a concrete two-event day: a day-long event and a
timed event, the day-long one listed first. -/
theorem c6_resolver_witness :
    (resolver_evento_id "2025-03-10"
      [⟨some "a", some "Cita", none, ⟨some "2025-03-10T09:30:00-03:00", none⟩,
         ⟨some "2025-03-10T10:00:00-03:00", none⟩⟩,
       ⟨some "b", some "Feriado", none, ⟨none, some "2025-03-10"⟩,
         ⟨none, some "2025-03-11"⟩⟩]).1 = none
  ∧ (resolver_evento_id "2025-03-10"
      [⟨some "a", some "Cita", none, ⟨some "2025-03-10T09:30:00-03:00", none⟩,
         ⟨some "2025-03-10T10:00:00-03:00", none⟩⟩,
       ⟨some "b", some "Feriado", none, ⟨none, some "2025-03-10"⟩,
         ⟨none, some "2025-03-11"⟩⟩]).2
      = [⟨"Feriado", "b", "todo el día", ""⟩,
         ⟨"Cita", "a", "09:30", "10:00"⟩] := by
  have h := (c6_resolver "2025-03-10"
    [⟨some "a", some "Cita", none, ⟨some "2025-03-10T09:30:00-03:00", none⟩,
       ⟨some "2025-03-10T10:00:00-03:00", none⟩⟩,
     ⟨some "b", some "Feriado", none, ⟨none, some "2025-03-10"⟩,
       ⟨none, some "2025-03-11"⟩⟩] (by decide)).2.2 (by decide)
  exact ⟨h.1, h.2.1.trans (by decide)⟩

/-- C6 counterexample for the claimed cap: four non-cancelled events on
one day produce four candidates, not at most 3. -/
theorem c6_sin_tope_contraejemplo :
    3 < ((resolver_evento_id "2025-03-10"
      [⟨some "a", some "A", none, ⟨some "2025-03-10T09:00:00-03:00", none⟩,
         ⟨some "2025-03-10T10:00:00-03:00", none⟩⟩,
       ⟨some "b", some "B", none, ⟨some "2025-03-10T11:00:00-03:00", none⟩,
         ⟨some "2025-03-10T12:00:00-03:00", none⟩⟩,
       ⟨some "c", some "C", none, ⟨some "2025-03-10T13:00:00-03:00", none⟩,
         ⟨some "2025-03-10T14:00:00-03:00", none⟩⟩,
       ⟨some "d", some "D", none, ⟨some "2025-03-10T15:00:00-03:00", none⟩,
         ⟨some "2025-03-10T16:00:00-03:00", none⟩⟩]).2).length := by
  decide

/-! ### Claims C1, C2 and C5 (intent-label mismatch) -/

/-- C1 (code bug): the scenario message is classified `"CREATE_EVENT"`,
but every requirement branch of `aplicar_extraccion_de_slots` compares
the intent against `"crear"`, so the missing-field list comes out empty
(second conjunct), no `titulo` prompt is produced, and instead of ending
with `activeIntent = CREATE` and the start/duration slots filled the turn
falls through to execution and resets the whole state (third conjunct;
in the unmodelled runtime the unimplemented extractor stub would raise a
`TypeError` even before that). -/
theorem c1_escenario_agendar :
    detect_intent "quiero agendar una reunión mañana a las 10 por una hora"
      = some "CREATE_EVENT"
  ∧ calcFaltantes (some "CREATE_EVENT") [] = some []
  ∧ receiveStep envTrivial ⟨none, [], none, none⟩
      "quiero agendar una reunión mañana a las 10 por una hora"
      = (⟨none, [], none, none⟩, .ejecutado "hecho") :=
  ⟨by decide, rfl, rfl⟩

/-- C2 (code bug): an update turn and a cancel turn execute although no
event identity was resolved and no changes were collected.  The detector
labels (`"UPDATE_EVENT"`, `"CANCEL_EVENT"`) match no requirement branch
(those compare against `"actualizar"`/`"cancelar"`), the missing-field
list is empty, and the action is executed immediately from an empty slot
set instead of reporting the missing fields. -/
theorem c2_update_cancel_sin_requisitos :
    detect_intent "cambiar la reunión al jueves" = some "UPDATE_EVENT"
  ∧ receiveStep envTrivial ⟨none, [], none, none⟩ "cambiar la reunión al jueves"
      = (⟨none, [], none, none⟩, .ejecutado "hecho")
  ∧ detect_intent "cancelar la reunión del jueves" = some "CANCEL_EVENT"
  ∧ receiveStep envTrivial ⟨none, [], none, none⟩ "cancelar la reunión del jueves"
      = (⟨none, [], none, none⟩, .ejecutado "hecho") :=
  ⟨by decide, rfl, by decide, rfl⟩

/-- C5 (code bug): the proposal half of the round-trip behaves as
claimed — an update-classified message from a CREATE state only records
`pendingIntent`/`pendingMessage` (first conjunct) — but the negative
reply answers with an empty missing-field summary (second conjunct,
`seguirCon … []`) although `inicio`, `fin`/`duracion` and `titulo` are
all missing, because the summary compares the stored label
`"CREATE_EVENT"` against `"crear"`; and the affirmative reply, instead of
leaving `activeIntent = UPDATE` with re-extracted slots, falls through to
execution and resets the state for the same label-mismatch reason (third
conjunct). -/
theorem c5_confirmacion_intencion :
    receiveStep envTrivial ⟨some "CREATE_EVENT", [], none, none⟩ "cambiar la reunión"
      = (⟨some "CREATE_EVENT", [], some "UPDATE_EVENT", some "cambiar la reunión"⟩,
         .proponerCambio "CREATE_EVENT" "UPDATE_EVENT")
  ∧ receiveStep envTrivial
      ⟨some "CREATE_EVENT", [], some "UPDATE_EVENT", some "cambiar la reunión"⟩ "no"
      = (⟨some "CREATE_EVENT", [], none, none⟩, .seguirCon (some "CREATE_EVENT") [])
  ∧ receiveStep envTrivial
      ⟨some "CREATE_EVENT", [], some "UPDATE_EVENT", some "cambiar la reunión"⟩ "sí"
      = (⟨none, [], none, none⟩, .ejecutado "hecho") :=
  ⟨rfl, rfl, rfl⟩

/-! ### Claim C7 (selection bounds) -/

theorem dget_derase_self (d : Dict) (k : String) : dget (derase d k) k = none := by
  induction d with
  | nil => rfl
  | cons kv rest ih =>
    by_cases h : kv.1 = k
    · simpa [derase, List.filter_cons, h] using ih
    · simpa [derase, List.filter_cons, h, dget] using ih

theorem dget_derase_ne (d : Dict) (k k' : String) (h : k' ≠ k) :
    dget (derase d k) k' = dget d k' := by
  induction d with
  | nil => rfl
  | cons kv rest ih =>
    obtain ⟨a, b⟩ := kv
    by_cases hk : a = k
    · have hne : ¬ a = k' := by
        rw [hk]
        exact Ne.symm h
      calc dget (derase ((a, b) :: rest) k) k'
          = dget (derase rest k) k' := by simp [derase, List.filter_cons, hk]
        _ = dget rest k' := ih
        _ = dget ((a, b) :: rest) k' := by simp [dget, hne]
    · by_cases hq : a = k'
      · simp [derase, List.filter_cons, hk, dget, hq, h]
      · simp [derase, List.filter_cons, hk, dget, hq]
        simpa [derase] using ih

/-- C7: while the state awaits an event selection over the stored
candidate tuples, a message with no number re-prompts with no state
change; a numeric choice outside `1..n` re-prompts with no state change;
and a valid choice `k` (whose candidate carries an id) commits slots with
`event_id` set to the k-th candidate's id and with `opciones_evento` and
`awaiting` removed. -/
theorem c7_seleccion (env : Env) (s : ConvState) (msg : String) (os : List Opcion)
    (hsel : dget s.slots "awaiting" = some (.vstr "event_selection"))
    (hops : dget s.slots "opciones_evento" = some (.vopts os)) :
    (firstNumber (trimChars msg.data) = none →
       receiveStep env s msg = (s, .pedirNumero))
  ∧ (∀ n, firstNumber (trimChars msg.data) = some n →
       ¬ (1 ≤ n ∧ n - 1 < os.length) →
       receiveStep env s msg = (s, .fueraDeRango))
  ∧ (∀ n (hn : 1 ≤ n ∧ n - 1 < os.length),
       firstNumber (trimChars msg.data) = some n →
       (os.get ⟨n - 1, hn.2⟩).eventId ≠ "" →
       ∃ d, seleccionPaso s.slots msg = some (.elegido d)
         ∧ dget d "event_id" = some (.vstr (os.get ⟨n - 1, hn.2⟩).eventId)
         ∧ dget d "opciones_evento" = none
         ∧ dget d "awaiting" = none) := by
  have hesp : esperaSeleccion s.slots = true := by
    unfold esperaSeleccion
    rw [hsel]
    simp
  have hstep : receiveStep env s msg = selBranch env s msg := by
    unfold receiveStep
    rw [hesp]
    simp
  refine ⟨?_, ?_, ?_⟩
  · intro hno
    rw [hstep]
    unfold selBranch seleccionPaso
    rw [hno]
  · intro n hn hout
    rw [hstep]
    unfold selBranch seleccionPaso
    rw [hn, hops]
    simp [hout]
  · intro n hn hnum hid
    unfold seleccionPaso
    rw [hnum, hops]
    simp only [hn, dite_true, dif_pos hn, if_neg hid]
    refine ⟨_, rfl, ?_, ?_, ?_⟩
    · rw [dget_derase_ne _ _ _ (by decide), dget_derase_ne _ _ _ (by decide),
        dget_dset_self]
    · rw [dget_derase_ne _ _ _ (by decide), dget_derase_self]
    · rw [dget_derase_self]

/-- Witness for C7: three candidates stored; `"hola"` re-prompts, `"4"`
is out of range, `"2"` selects the second candidate's id and clears the
transients. -/
theorem c7_seleccion_witness :
    receiveStep envTrivial
      ⟨some "CANCEL_EVENT",
       [("awaiting", Val.vstr "event_selection"),
        ("opciones_evento", Val.vopts
          [⟨"A", "id1", "09:00", "10:00"⟩, ⟨"B", "id2", "11:00", "12:00"⟩,
           ⟨"C", "id3", "13:00", "14:00"⟩])], none, none⟩ "hola"
      = (⟨some "CANCEL_EVENT",
          [("awaiting", Val.vstr "event_selection"),
           ("opciones_evento", Val.vopts
             [⟨"A", "id1", "09:00", "10:00"⟩, ⟨"B", "id2", "11:00", "12:00"⟩,
              ⟨"C", "id3", "13:00", "14:00"⟩])], none, none⟩, .pedirNumero)
  ∧ receiveStep envTrivial
      ⟨some "CANCEL_EVENT",
       [("awaiting", Val.vstr "event_selection"),
        ("opciones_evento", Val.vopts
          [⟨"A", "id1", "09:00", "10:00"⟩, ⟨"B", "id2", "11:00", "12:00"⟩,
           ⟨"C", "id3", "13:00", "14:00"⟩])], none, none⟩ "4"
      = (⟨some "CANCEL_EVENT",
          [("awaiting", Val.vstr "event_selection"),
           ("opciones_evento", Val.vopts
             [⟨"A", "id1", "09:00", "10:00"⟩, ⟨"B", "id2", "11:00", "12:00"⟩,
              ⟨"C", "id3", "13:00", "14:00"⟩])], none, none⟩, .fueraDeRango)
  ∧ ∃ d, seleccionPaso
      [("awaiting", Val.vstr "event_selection"),
       ("opciones_evento", Val.vopts
         [⟨"A", "id1", "09:00", "10:00"⟩, ⟨"B", "id2", "11:00", "12:00"⟩,
          ⟨"C", "id3", "13:00", "14:00"⟩])] "2"
      = some (.elegido d)
    ∧ dget d "event_id" = some (.vstr "id2")
    ∧ dget d "opciones_evento" = none
    ∧ dget d "awaiting" = none := by
  refine ⟨(c7_seleccion envTrivial
      ⟨some "CANCEL_EVENT",
       [("awaiting", Val.vstr "event_selection"),
        ("opciones_evento", Val.vopts
          [⟨"A", "id1", "09:00", "10:00"⟩, ⟨"B", "id2", "11:00", "12:00"⟩,
           ⟨"C", "id3", "13:00", "14:00"⟩])], none, none⟩ "hola"
      [⟨"A", "id1", "09:00", "10:00"⟩, ⟨"B", "id2", "11:00", "12:00"⟩,
       ⟨"C", "id3", "13:00", "14:00"⟩] rfl rfl).1 rfl,
    (c7_seleccion envTrivial
      ⟨some "CANCEL_EVENT",
       [("awaiting", Val.vstr "event_selection"),
        ("opciones_evento", Val.vopts
          [⟨"A", "id1", "09:00", "10:00"⟩, ⟨"B", "id2", "11:00", "12:00"⟩,
           ⟨"C", "id3", "13:00", "14:00"⟩])], none, none⟩ "4"
      [⟨"A", "id1", "09:00", "10:00"⟩, ⟨"B", "id2", "11:00", "12:00"⟩,
       ⟨"C", "id3", "13:00", "14:00"⟩] rfl rfl).2.1 4 rfl (by decide), ?_⟩
  exact (c7_seleccion envTrivial
    ⟨some "CANCEL_EVENT",
     [("awaiting", Val.vstr "event_selection"),
      ("opciones_evento", Val.vopts
        [⟨"A", "id1", "09:00", "10:00"⟩, ⟨"B", "id2", "11:00", "12:00"⟩,
         ⟨"C", "id3", "13:00", "14:00"⟩])], none, none⟩ "2"
    [⟨"A", "id1", "09:00", "10:00"⟩, ⟨"B", "id2", "11:00", "12:00"⟩,
     ⟨"C", "id3", "13:00", "14:00"⟩] rfl rfl).2.2
    2 (by decide) rfl (by decide)

/-! ### Claim C10 (selection-state invariant) -/

theorem dget_aplicarCambios_ne (i : String) (acc : Dict) (cam : Option Dict)
    (k : String) (hk : k ≠ "cambios") :
    dget (aplicarCambios i acc cam) k = dget acc k := by
  unfold aplicarCambios
  by_cases hi : i = "actualizar"
  · rw [if_pos hi]
    cases cam with
    | none => rfl
    | some c =>
      by_cases hce : c.isEmpty
      · simp [hce]
      · simp only [hce, Bool.false_eq_true, if_false]
        cases hd : dget acc "cambios" with
        | none => exact dget_dset_ne _ _ _ _ hk
        | some v => cases v <;> exact dget_dset_ne _ _ _ _ hk
  · rw [if_neg hi]

theorem dget_aplicarMerges_otra (intent : Option String) (slotsProp : Dict)
    (cambios : Option Dict) (slots : Dict) (k : String)
    (hk1 : k ∉ dkeys slotsProp) (hk2 : k ≠ "cambios") :
    dget (aplicarMerges intent slotsProp cambios slots) k = dget slots k := by
  unfold aplicarMerges
  cases intent with
  | none => exact dget_mergeSlots_not_mem _ _ _ hk1
  | some i =>
    rw [dget_aplicarCambios_ne i _ cambios k hk2]
    exact dget_mergeSlots_not_mem _ _ _ hk1

theorem aplicarResolver_claves (env : Env) (intent : Option String)
    (fechaId : Option String) (acc : Dict) :
    dget (aplicarResolver env intent fechaId acc) "awaiting" = dget acc "awaiting"
  ∧ (dget (aplicarResolver env intent fechaId acc) "opciones_evento"
       = dget acc "opciones_evento"
     ∨ ∃ ops, ops ≠ []
         ∧ dget (aplicarResolver env intent fechaId acc) "opciones_evento"
             = some (.vopts ops)) := by
  have hfoAw : ∀ (d : Dict) v, dget (dset d "fecha_objetivo" v) "awaiting"
      = dget d "awaiting" := fun d v => dget_dset_ne d _ _ v (by decide)
  have hopAw : ∀ (d : Dict) v, dget (dset d "opciones_evento" v) "awaiting"
      = dget d "awaiting" := fun d v => dget_dset_ne d _ _ v (by decide)
  have heiAw : ∀ (d : Dict) v, dget (dset d "event_id" v) "awaiting"
      = dget d "awaiting" := fun d v => dget_dset_ne d _ _ v (by decide)
  have hfoOp : ∀ (d : Dict) v, dget (dset d "fecha_objetivo" v) "opciones_evento"
      = dget d "opciones_evento" := fun d v => dget_dset_ne d _ _ v (by decide)
  have heiOp : ∀ (d : Dict) v, dget (dset d "event_id" v) "opciones_evento"
      = dget d "opciones_evento" := fun d v => dget_dset_ne d _ _ v (by decide)
  unfold aplicarResolver
  by_cases hc : (intent = some "actualizar" ∨ intent = some "cancelar")
      ∧ (dget acc "event_id").isNone = true
  case neg =>
    rw [if_neg hc]
    exact ⟨rfl, Or.inl rfl⟩
  case pos =>
    rw [if_pos hc]
    cases fechaId with
    | none => exact ⟨rfl, Or.inl rfl⟩
    | some f =>
      dsimp only
      by_cases hf : f = ""
      · rw [if_pos hf]
        exact ⟨rfl, Or.inl rfl⟩
      · rw [if_neg hf]
        cases hr : env.resolver f with
        | mk eid ops =>
          have hne : ¬ ops.isEmpty = true → ops ≠ [] := by
            intro ho hnil
            rw [hnil] at ho
            exact ho rfl
          cases eid with
          | some e =>
            dsimp only
            by_cases he : e = ""
            · rw [if_pos he]
              by_cases ho : ops.isEmpty
              · rw [if_pos ho]
                exact ⟨hfoAw _ _, Or.inl (hfoOp _ _)⟩
              · rw [if_neg ho]
                refine ⟨by rw [hopAw, hfoAw], Or.inr ⟨ops, hne ho, ?_⟩⟩
                exact dget_dset_self _ _ _
            · rw [if_neg he]
              exact ⟨by rw [heiAw, hfoAw], Or.inl (by rw [heiOp, hfoOp])⟩
          | none =>
            dsimp only
            by_cases ho : ops.isEmpty
            · rw [if_pos ho]
              exact ⟨hfoAw _ _, Or.inl (hfoOp _ _)⟩
            · rw [if_neg ho]
              refine ⟨by rw [hopAw, hfoAw], Or.inr ⟨ops, hne ho, ?_⟩⟩
              exact dget_dset_self _ _ _

theorem aplicar_claves (env : Env) (hwf : WFEnv env) (intent : Option String)
    (msg : String) (slots : Dict) (pending : Option String)
    (d2 : Dict) (fs : List String) (c : Bool)
    (happ : aplicar env intent msg slots pending = some (d2, fs, c)) :
    dget d2 "awaiting" = dget slots "awaiting"
  ∧ (dget d2 "opciones_evento" = dget slots "opciones_evento"
     ∨ ∃ ops, ops ≠ [] ∧ dget d2 "opciones_evento" = some (.vopts ops)) := by
  unfold aplicar at happ
  dsimp only at happ
  cases hcf : calcFaltantes intent (aplicarResolver env intent
      (env.extraer intent (textoTurno msg pending) slots).2.1
      (aplicarMerges intent (env.extraer intent (textoTurno msg pending) slots).1
        (env.extraer intent (textoTurno msg pending) slots).2.2 slots)) with
  | none =>
    rw [hcf] at happ
    simp at happ
  | some fs' =>
    rw [hcf] at happ
    simp only [Option.some.injEq, Prod.mk.injEq] at happ
    obtain ⟨hd2, _⟩ := happ
    subst hd2
    have hmAw : dget (aplicarMerges intent
        (env.extraer intent (textoTurno msg pending) slots).1
        (env.extraer intent (textoTurno msg pending) slots).2.2 slots) "awaiting"
        = dget slots "awaiting" :=
      dget_aplicarMerges_otra _ _ _ _ _
        (hwf intent (textoTurno msg pending) slots).1 (by decide)
    have hmOp : dget (aplicarMerges intent
        (env.extraer intent (textoTurno msg pending) slots).1
        (env.extraer intent (textoTurno msg pending) slots).2.2 slots) "opciones_evento"
        = dget slots "opciones_evento" :=
      dget_aplicarMerges_otra _ _ _ _ _
        (hwf intent (textoTurno msg pending) slots).2 (by decide)
    have hres := aplicarResolver_claves env intent
      (env.extraer intent (textoTurno msg pending) slots).2.1
      (aplicarMerges intent (env.extraer intent (textoTurno msg pending) slots).1
        (env.extraer intent (textoTurno msg pending) slots).2.2 slots)
    refine ⟨by rw [hres.1, hmAw], ?_⟩
    rcases hres.2 with h | ⟨ops, hops, h⟩
    · exact Or.inl (by rw [h, hmOp])
    · exact Or.inr ⟨ops, hops, h⟩

theorem invSlots_nil : invSlots [] :=
  ⟨fun v hv => by simp [dget] at hv, fun h => by simp [dget] at h⟩

theorem invSlots_aplicar (env : Env) (hwf : WFEnv env) (intent : Option String)
    (msg : String) (slots : Dict) (pending : Option String)
    (d2 : Dict) (fs : List String) (c : Bool)
    (happ : aplicar env intent msg slots pending = some (d2, fs, c))
    (hinv : invSlots slots) : invSlots d2 := by
  obtain ⟨hAw, hOp⟩ := aplicar_claves env hwf intent msg slots pending d2 fs c happ
  constructor
  · intro v hv
    rcases hOp with h | ⟨ops, hne, h⟩
    · rw [h] at hv
      exact hinv.1 v hv
    · rw [h] at hv
      exact ⟨ops, (Option.some.inj hv).symm, hne⟩
  · intro hsome
    rw [hAw] at hsome
    have hpres := hinv.2 hsome
    rcases hOp with h | ⟨ops, hne, h⟩
    · rw [h]
      exact hpres
    · rw [h]
      rfl

theorem invSlots_set_awaiting (d : Dict)
    (hA : ∀ v, dget d "opciones_evento" = some v → ∃ os, v = Val.vopts os ∧ os ≠ [])
    (hop : (dget d "opciones_evento").isSome = true) :
    invSlots (dset d "awaiting" (Val.vstr "event_selection")) := by
  constructor
  · intro v hv
    rw [dget_dset_ne _ _ _ _ (by decide)] at hv
    exact hA v hv
  · intro hsome
    rw [dget_dset_ne _ _ _ _ (by decide)]
    exact hop

theorem seleccionPaso_elegido (slots : Dict) (msg : String) (d : Dict)
    (h : seleccionPaso slots msg = some (.elegido d)) :
    dget d "opciones_evento" = none ∧ dget d "awaiting" = none := by
  unfold seleccionPaso at h
  cases hn : firstNumber (trimChars msg.data) with
  | none =>
    rw [hn] at h
    exact SelOutcome.noConfusion (Option.some.inj h)
  | some n =>
    rw [hn] at h
    dsimp only at h
    cases ho : dget slots "opciones_evento" with
    | none =>
      rw [ho] at h
      exact Option.noConfusion h
    | some v =>
      rw [ho] at h
      cases v with
      | vnull =>
        dsimp only at h
        exact Option.noConfusion h
      | vstr a =>
        dsimp only at h
        exact Option.noConfusion h
      | vlist l =>
        dsimp only at h
        exact Option.noConfusion h
      | vdict dd =>
        dsimp only at h
        exact Option.noConfusion h
      | vopts os =>
        dsimp only at h
        by_cases hcond : 1 ≤ n ∧ n - 1 < os.length
        · rw [dif_pos hcond] at h
          by_cases hid : (os.get ⟨n - 1, hcond.2⟩).eventId = ""
          · rw [if_pos hid] at h
            exact SelOutcome.noConfusion (Option.some.inj h)
          · rw [if_neg hid] at h
            have hd : derase (derase
                (dset slots "event_id" (.vstr (os.get ⟨n - 1, hcond.2⟩).eventId))
                "opciones_evento") "awaiting" = d := by
              have := Option.some.inj h
              injection this
            rw [← hd]
            refine ⟨?_, dget_derase_self _ _⟩
            rw [dget_derase_ne _ _ _ (by decide)]
            exact dget_derase_self _ _
        · rw [dif_neg hcond] at h
          exact SelOutcome.noConfusion (Option.some.inj h)

theorem invSlots_selBranch (env : Env) (hwf : WFEnv env) (s : ConvState)
    (msg : String) (hinv : invSlots s.slots) :
    invSlots (selBranch env s msg).1.slots := by
  unfold selBranch
  cases hsp : seleccionPaso s.slots msg with
  | none => exact hinv
  | some o =>
    cases o with
    | pedirNumero => exact hinv
    | fueraDeRango => exact hinv
    | sinId => exact hinv
    | elegido d =>
      obtain ⟨hop, haw⟩ := seleccionPaso_elegido s.slots msg d hsp
      have hd : invSlots d := by
        constructor
        · intro v hv
          rw [hop] at hv
          exact Option.noConfusion hv
        · intro hsome
          rw [haw] at hsome
          exact Bool.noConfusion hsome
      dsimp only
      cases happ : aplicar env s.intentActual "" d none with
      | none => exact hd
      | some t =>
        obtain ⟨d2, fs, c⟩ := t
        dsimp only
        by_cases hfs : fs.isEmpty
        · rw [if_pos hfs]
          exact invSlots_nil
        · rw [if_neg hfs]
          exact invSlots_aplicar env hwf s.intentActual "" d none d2 fs c happ hd

theorem invSlots_pendBranch (env : Env) (hwf : WFEnv env) (s : ConvState)
    (p msg : String) (hinv : invSlots s.slots) :
    invSlots (pendBranch env s p msg).1.slots := by
  unfold pendBranch
  dsimp only
  by_cases ha : AFIRMATIVAS.contains (String.mk ((trimChars msg.data).map pyLowerChar))
  · rw [if_pos ha]
    cases happ : aplicar env (some p) msg [] s.pendingMessage with
    | none => exact invSlots_nil
    | some t =>
      obtain ⟨d2, fs, c⟩ := t
      have hd2 : invSlots d2 :=
        invSlots_aplicar env hwf (some p) msg [] s.pendingMessage d2 fs c happ invSlots_nil
      dsimp only
      by_cases hopt : optValTruthy (dget d2 "opciones_evento")
      · rw [if_pos hopt]
        apply invSlots_set_awaiting d2 hd2.1
        unfold optValTruthy at hopt
        cases hq : dget d2 "opciones_evento" with
        | none =>
          rw [hq] at hopt
          exact Bool.noConfusion hopt
        | some v => rfl
      · rw [if_neg hopt]
        by_cases hfs : fs.isEmpty
        · rw [if_pos hfs]
          exact invSlots_nil
        · rw [if_neg hfs]
          exact hd2
  · rw [if_neg ha]
    by_cases hn : NEGATIVAS.contains (String.mk ((trimChars msg.data).map pyLowerChar))
    · rw [if_pos hn]
      exact hinv
    · rw [if_neg hn]
      exact hinv

theorem invSlots_turnoMismaIntencion (env : Env) (hwf : WFEnv env) (s : ConvState)
    (actual msg : String) (hinv : invSlots s.slots) :
    invSlots (turnoMismaIntencion env s actual msg).1.slots := by
  unfold turnoMismaIntencion
  cases happ : aplicar env (some actual) msg s.slots s.pendingMessage with
  | none => exact hinv
  | some t =>
    obtain ⟨d2, fs, c⟩ := t
    have hd2 : invSlots d2 :=
      invSlots_aplicar env hwf (some actual) msg s.slots s.pendingMessage d2 fs c happ hinv
    dsimp only
    by_cases hopt : optValTruthy (dget d2 "opciones_evento")
    · rw [if_pos hopt]
      apply invSlots_set_awaiting d2 hd2.1
      unfold optValTruthy at hopt
      cases hq : dget d2 "opciones_evento" with
      | none =>
        rw [hq] at hopt
        exact Bool.noConfusion hopt
      | some v => rfl
    · rw [if_neg hopt]
      by_cases hfs : fs.isEmpty
      · rw [if_pos hfs]
        exact invSlots_nil
      · rw [if_neg hfs]
        exact hd2

theorem invSlots_turnoNormal (env : Env) (hwf : WFEnv env) (s : ConvState)
    (msg : String) (hinv : invSlots s.slots) :
    invSlots (turnoNormal env s msg).1.slots := by
  unfold turnoNormal
  cases hi : s.intentActual with
  | none =>
    dsimp only
    cases hd : detect_intent msg with
    | none => exact hinv
    | some it =>
      dsimp only
      cases happ : aplicar env (some it) msg s.slots none with
      | none => exact hinv
      | some t =>
        obtain ⟨d2, fs, c⟩ := t
        have hd2 : invSlots d2 :=
          invSlots_aplicar env hwf (some it) msg s.slots none d2 fs c happ hinv
        dsimp only
        by_cases hopt : optValTruthy (dget d2 "opciones_evento")
        · rw [if_pos hopt]
          apply invSlots_set_awaiting d2 hd2.1
          unfold optValTruthy at hopt
          cases hq : dget d2 "opciones_evento" with
          | none =>
            rw [hq] at hopt
            exact Bool.noConfusion hopt
          | some v => rfl
        · rw [if_neg hopt]
          by_cases hfs : fs.isEmpty
          · rw [if_pos hfs]
            exact invSlots_nil
          · rw [if_neg hfs]
            exact hd2
  | some actual =>
    dsimp only
    cases hd : detect_intent msg with
    | some det =>
      dsimp only
      by_cases hne : det ≠ actual
      · rw [if_pos hne]
        exact hinv
      · rw [if_neg hne]
        exact invSlots_turnoMismaIntencion env hwf s actual msg hinv
    | none => exact invSlots_turnoMismaIntencion env hwf s actual msg hinv

theorem invSlots_receiveStep (env : Env) (hwf : WFEnv env) (s : ConvState)
    (msg : String) (hinv : invSlots s.slots) :
    invSlots (receiveStep env s msg).1.slots := by
  unfold receiveStep
  by_cases hs : esperaSeleccion s.slots
  · rw [if_pos hs]
    exact invSlots_selBranch env hwf s msg hinv
  · rw [if_neg hs]
    by_cases hp : strOptTruthy s.pendingIntent
    · rw [if_pos hp]
      exact invSlots_pendBranch env hwf s _ msg hinv
    · rw [if_neg hp]
      exact invSlots_turnoNormal env hwf s msg hinv

/-- C10: in every reachable conversation state, whenever `awaiting`
equals `"event_selection"` the stored `opciones_evento` is a non-empty
candidate-tuple list (and whatever is stored there is always such a
list), so the selection branch's length computation and candidate
indexing never operate on a missing candidate list. -/
theorem c10_invariante_seleccion (s : ConvState) (h : Alcanzable s) :
    (∀ v, dget s.slots "opciones_evento" = some v → ∃ os, v = Val.vopts os ∧ os ≠ [])
  ∧ (esperaSeleccion s.slots = true →
      ∃ os, os ≠ [] ∧ dget s.slots "opciones_evento" = some (Val.vopts os)) := by
  have hinv : invSlots s.slots := by
    induction h with
    | inicial => exact invSlots_nil
    | paso s' env msg hs hwf ih => exact invSlots_receiveStep env hwf s' msg ih
  refine ⟨hinv.1, fun hsel => ?_⟩
  have haw : (dget s.slots "awaiting").isSome = true := by
    unfold esperaSeleccion at hsel
    cases hq : dget s.slots "awaiting" with
    | none =>
      rw [hq] at hsel
      exact Bool.noConfusion hsel
    | some v => rfl
  have hop := hinv.2 haw
  cases hq : dget s.slots "opciones_evento" with
  | none =>
    rw [hq] at hop
    exact Bool.noConfusion hop
  | some v =>
    obtain ⟨os, rfl, hne⟩ := hinv.1 v hq
    exact ⟨os, hne, rfl⟩

/-- Witness for C10 at the initial (reachable) state. -/
theorem c10_invariante_seleccion_witness :
    (∀ v, dget (⟨none, [], none, none⟩ : ConvState).slots "opciones_evento" = some v →
        ∃ os, v = Val.vopts os ∧ os ≠ [])
  ∧ (esperaSeleccion (⟨none, [], none, none⟩ : ConvState).slots = true →
      ∃ os, os ≠ []
        ∧ dget (⟨none, [], none, none⟩ : ConvState).slots "opciones_evento"
            = some (Val.vopts os)) :=
  c10_invariante_seleccion ⟨none, [], none, none⟩ Alcanzable.inicial

end App

